import Mathlib

/-!
Verification development for the ts-evtx EVTX decoder.

The definitions below are a shallow embedding of the TypeScript sources:
byte buffers are `List Nat` (one entry per byte, values < 256), the
`BinaryReader` streaming reads become explicit position passing, and
fallible reads (the reader throws on out-of-bounds access) return
`Except Nat` carrying the position at which the read failed, mirroring
the fact that a throwing read does not advance the reader.
-/

namespace TsEvtx

/-- Byte buffers: one `Nat` per byte, in file order. -/
abbrev Bytes := List Nat

/-- BinaryReader.u8At: single byte at an absolute offset (in-bounds assumed by caller). -/
def u8At (bs : Bytes) (i : Nat) : Nat := bs.getD i 0

/-- BinaryReader.u16leAt: little-endian 16-bit read. -/
def u16leAt (bs : Bytes) (i : Nat) : Nat := u8At bs i + 256 * u8At bs (i + 1)

/-- BinaryReader.u32leAt: little-endian 32-bit read. -/
def u32leAt (bs : Bytes) (i : Nat) : Nat :=
  u8At bs i + 256 * u8At bs (i + 1) + 65536 * u8At bs (i + 2) + 16777216 * u8At bs (i + 3)

/-- BinaryReader.u32beAt: big-endian 32-bit read. -/
def u32beAt (bs : Bytes) (i : Nat) : Nat :=
  16777216 * u8At bs i + 65536 * u8At bs (i + 1) + 256 * u8At bs (i + 2) + u8At bs (i + 3)

/-- BinaryReader.u64leAt: little-endian 64-bit read (lo dword | hi dword << 32). -/
def u64leAt (bs : Bytes) (i : Nat) : Nat :=
  u32leAt bs i + 4294967296 * u32leAt bs (i + 4)

/-- Streaming read of one byte: `r.u8()`. Fails (throws) when out of bounds,
leaving the position unchanged, exactly like `BinaryReader.u8`. -/
def ru8 (bs : Bytes) (pos : Nat) : Except Nat (Nat × Nat) :=
  if pos + 1 ≤ bs.length then .ok (u8At bs pos, pos + 1) else .error pos

/-- Streaming read `r.u16le()`. -/
def ru16le (bs : Bytes) (pos : Nat) : Except Nat (Nat × Nat) :=
  if pos + 2 ≤ bs.length then .ok (u16leAt bs pos, pos + 2) else .error pos

/-- Streaming read `r.u32le()`. -/
def ru32le (bs : Bytes) (pos : Nat) : Except Nat (Nat × Nat) :=
  if pos + 4 ≤ bs.length then .ok (u32leAt bs pos, pos + 4) else .error pos

/-- Streaming read `r.u32be()`. -/
def ru32be (bs : Bytes) (pos : Nat) : Except Nat (Nat × Nat) :=
  if pos + 4 ≤ bs.length then .ok (u32beAt bs pos, pos + 4) else .error pos

/-- Streaming read `r.u64le()`. -/
def ru64le (bs : Bytes) (pos : Nat) : Except Nat (Nat × Nat) :=
  if pos + 8 ≤ bs.length then .ok (u64leAt bs pos, pos + 8) else .error pos

/-- Streaming read of `n` raw bytes: `r.readBuffer(n)` / `r.bytesAt(pos, n)` plus seek. -/
def rbytes (bs : Bytes) (pos n : Nat) : Except Nat (List Nat × Nat) :=
  if pos + n ≤ bs.length then .ok ((bs.drop pos).take n, pos + n) else .error pos

/-- BinaryReader.peek: read the byte under the cursor without advancing. -/
def rpeek (bs : Bytes) (pos : Nat) : Except Nat Nat :=
  if pos + 1 ≤ bs.length then .ok (u8At bs pos) else .error pos

/-! ## C10 — message selection fit (src/api.ts, buildResolvedEventFromRecord)

From the source:
  const argsUsed = need > 0 ? Math.min(args.length, need) : args.length;
  const fit = (need === argsUsed) ? 'exact' : (need > argsUsed ? 'underflow' : 'overflow');
-/

/-- The three fit verdicts recorded in `selection.fit`. -/
inductive Fit where
  | exact
  | underflow
  | overflow
deriving DecidableEq, Repr

/-- argsUsed as computed in buildResolvedEventFromRecord. -/
def argsUsedOf (need argsLen : Nat) : Nat :=
  if 0 < need then min argsLen need else argsLen

/-- fit as computed in buildResolvedEventFromRecord. -/
def fitOf (need argsLen : Nat) : Fit :=
  let argsUsed := argsUsedOf need argsLen
  if need = argsUsed then .exact else if argsUsed < need then .underflow else .overflow

/-- placeholderMax from src/api.ts: the greatest N over all %N tokens of a template.
The scan is modelled below over `List Char` (see the C9 section for the
shared scanning helpers); here only the numeric result matters. -/
def digitVal (c : Char) : Nat := c.toNat - 48

/-- Character class test for ASCII digits, as used by the \d regex class. -/
def isDig (c : Char) : Bool := 48 ≤ c.toNat && c.toNat ≤ 57

/-- parseInt on a nonempty list of ASCII digits. -/
def digitsToNat (ds : List Char) : Nat := ds.foldl (fun a c => a * 10 + digitVal c) 0

/-- placeholderMax: scan for %N occurrences, keep the maximum N. -/
def placeholderMaxGo : Nat → List Char → Nat
  | 0, _ => 0
  | _, [] => 0
  | fuel + 1, c :: rest =>
      if c = '%' then
        let ds := rest.takeWhile isDig
        if ds.isEmpty then placeholderMaxGo fuel rest
        else max (digitsToNat ds) (placeholderMaxGo fuel (rest.drop ds.length))
      else placeholderMaxGo fuel rest

/-- placeholderMax over a template given as a character list. -/
def placeholderMax (t : List Char) : Nat := placeholderMaxGo t.length t

/-! ## C6 — Record.timestampAsDate and filetimeToDate -/

/-- JS BigInt division truncates toward zero; both operands here are
nonnegative except in `filetimeToDateMs`, so model it explicitly. -/
def jsBigintDiv (a : Int) (b : Nat) : Int :=
  if 0 ≤ a then (a.toNat / b : Nat) else -(((-a).toNat / b : Nat))

/-- Record.timestampAsDate (src Record.ts): epoch milliseconds of the Date
produced from a FILETIME value:
  Number(filetime / 10000n - 11644473600000n). -/
def timestampAsDateMs (filetime : Nat) : Int :=
  (filetime / 10000 : Nat) - 11644473600000

/-- Record.timestampAsDate composed with the header read: the FILETIME is
the u64le at record offset 0x10. -/
def recordTimestampAsDateMs (bs : Bytes) (recordOffset : Nat) : Int :=
  timestampAsDateMs (u64leAt bs (recordOffset + 0x10))

/-- filetimeToDate (src BinaryReader.ts utilities): special-cases 0, and
otherwise subtracts the epoch difference in 100ns ticks before dividing. -/
def filetimeToDateMs (qword : Nat) : Int :=
  if qword = 0 then 0
  else jsBigintDiv ((qword : Int) - 116444736000000000) 10000

/-! ## C7 — SystemTime decoding and the JS Date local-time constructor

`VariantValueParser.parseSystemTime` builds the value with
`new Date(year, month - 1, day, hour, minute, second, milliseconds)`,
the LOCAL-time constructor.  The construction is modelled for a fixed
time-zone offset `tzOffsetMs` (milliseconds east of UTC): the epoch
instant of a local wall-clock time is the UTC interpretation of the
fields minus that offset. -/

/-- Days since 1970-01-01 of the civil date y-m-d (proleptic Gregorian). -/
def daysFromCivil (y m d : Int) : Int :=
  let y' := y - (if m ≤ 2 then 1 else 0)
  let era := Int.fdiv y' 400
  let yoe := y' - era * 400
  let doy := Int.fdiv (153 * (m + (if 2 < m then -3 else 9)) + 2) 5 + d - 1
  let doe := yoe * 365 + Int.fdiv yoe 4 - Int.fdiv yoe 100 + doy
  era * 146097 + doe - 719468

/-- Epoch milliseconds of `new Date(y, mi, d, h, minute, s, ms)` evaluated on a
machine in a fixed-offset zone `tzOffsetMs` east of UTC.  Month index and
out-of-range fields roll over exactly as in ECMAScript `MakeDay`/`MakeDate`,
and two-digit years map to 19xx. -/
def jsLocalDateMs (tzOffsetMs : Int) (y mi d h minute s ms : Int) : Int :=
  let yy := if 0 ≤ y ∧ y ≤ 99 then y + 1900 else y
  let ny := yy + Int.fdiv mi 12
  let nm := Int.emod mi 12
  let days := daysFromCivil ny (nm + 1) 1 + (d - 1)
  days * 86400000 + h * 3600000 + minute * 60000 + s * 1000 + ms - tzOffsetMs

/-- VariantValueParser.parseSystemTime: eight consecutive u16le fields
(year, month, dayOfWeek, day, hour, minute, second, milliseconds; dayOfWeek
unused), combined through the local-time Date constructor.  Returns the epoch
milliseconds of the produced Date and the new cursor position. -/
def parseSystemTime (bs : Bytes) (tzOffsetMs : Int) (pos : Nat) : Except Nat (Int × Nat) := do
  let (year, p1) ← ru16le bs pos
  let (month, p2) ← ru16le bs p1
  let (_dayOfWeek, p3) ← ru16le bs p2
  let (day, p4) ← ru16le bs p3
  let (hour, p5) ← ru16le bs p4
  let (minute, p6) ← ru16le bs p5
  let (second, p7) ← ru16le bs p6
  let (milliseconds, p8) ← ru16le bs p7
  pure (jsLocalDateMs tzOffsetMs year ((month : Int) - 1) day hour minute second milliseconds, p8)

/-! ## C5 — VariantValueParser.parse (substitution and top-level modes) -/

/-- Parsed variant values.  String-valued results are kept structurally
(code units / component integers); the hex/GUID text rendering done by the
TypeScript is elided because no claim depends on the rendered text. -/
inductive VariantVal where
  | vNull
  | vWString (codeUnits : List Nat)
  | vString (bytes : List Nat)
  | vUInt (n : Nat)
  | vInt (n : Int)
  | vFloatBits (bits : Nat)
  | vBool (b : Bool)
  | vBinary (bytes : List Nat)
  | vGuid (d1 d2 d3 : Nat) (d4 : List Nat)
  | vFileTimeMs (ms : Int)
  | vSystemTimeMs (ms : Int)
  | vSid (revision : Nat) (authority : Int) (subAuthorities : List Nat)
  | vBXml (bytes : List Nat) (len : Nat) (baseOffset : Option Nat)
  | vEmptyObject
  | vWStringArray (strs : List (List Nat))
  | vRaw (bytes : List Nat)
deriving DecidableEq, Repr

/-- Result of one variant parse: value, consumedBytes, final cursor. -/
structure VPOut where
  value : VariantVal
  consumed : Nat
  pos : Nat
deriving DecidableEq, Repr

/-- Strip trailing zero code units, as `.replace(/\0+$/, '')` does. -/
def dropTrailingZeros (l : List Nat) : List Nat :=
  (l.reverse.dropWhile (· = 0)).reverse

/-- Interpret little-endian byte pairs as UTF-16 code units. -/
def toCodeUnits : List Nat → List Nat
  | a :: b :: rest => (a + 256 * b) :: toCodeUnits rest
  | _ => []

/-- JS 32-bit signed reinterpretation, for the SID authority bit arithmetic. -/
def toInt32 (n : Nat) : Int :=
  let m := n % 4294967296
  if m < 2147483648 then (m : Int) else (m : Int) - 4294967296

/-- Signed reinterpretation of a `w`-byte little-endian read (i8/i16/i32/i64). -/
def toSigned (w : Nat) (n : Nat) : Int :=
  let m := n % (256 ^ w)
  if m < 256 ^ w / 2 then (m : Int) else (m : Int) - (256 ^ w : Nat)

/-- parseWString (top level): u16 length prefix, then length UTF-16 code units. -/
def parseWStringTop (bs : Bytes) (pos : Nat) : Except Nat (VariantVal × Nat) := do
  let (len, p1) ← ru16le bs pos
  if len = 0 then pure (.vWString [], p1)
  else do
    let (raw, p2) ← rbytes bs p1 (len * 2)
    pure (.vWString (toCodeUnits raw), p2)

/-- parseWStringWithLength (substitution): declared bytes, trailing NULs stripped. -/
def parseWStringSub (bs : Bytes) (pos declared : Nat) : Except Nat (VariantVal × Nat) :=
  if declared = 0 then .ok (.vWString [], pos)
  else do
    let (raw, p1) ← rbytes bs pos declared
    pure (.vWString (dropTrailingZeros (toCodeUnits raw)), p1)

/-- parseString (top level): u16 length prefix, then length raw bytes. -/
def parseStringTop (bs : Bytes) (pos : Nat) : Except Nat (VariantVal × Nat) := do
  let (len, p1) ← ru16le bs pos
  if len = 0 then pure (.vString [], p1)
  else do
    let (raw, p2) ← rbytes bs p1 len
    pure (.vString raw, p2)

/-- parseStringWithLength (substitution): declared raw bytes, trailing NULs stripped. -/
def parseStringSub (bs : Bytes) (pos declared : Nat) : Except Nat (VariantVal × Nat) :=
  if declared = 0 then .ok (.vString [], pos)
  else do
    let (raw, p1) ← rbytes bs pos declared
    pure (.vString (dropTrailingZeros raw), p1)

/-- parseBinary (top level): u32 length prefix then raw bytes. -/
def parseBinaryTop (bs : Bytes) (pos : Nat) : Except Nat (VariantVal × Nat) := do
  let (len, p1) ← ru32le bs pos
  if len = 0 then pure (.vBinary [], p1)
  else do
    let (raw, p2) ← rbytes bs p1 len
    pure (.vBinary raw, p2)

/-- parseGuid: Data1 u32le, Data2 u16le, Data3 u16le, 8 raw bytes. -/
def parseGuid (bs : Bytes) (pos : Nat) : Except Nat (VariantVal × Nat) := do
  let (d1, p1) ← ru32le bs pos
  let (d2, p2) ← ru16le bs p1
  let (d3, p3) ← ru16le bs p2
  let (d4, p4) ← rbytes bs p3 8
  pure (.vGuid d1 d2 d3 d4, p4)

/-- parseFileTime: u64le of 100ns ticks, converted to epoch milliseconds. -/
def parseFileTime (bs : Bytes) (pos : Nat) : Except Nat (VariantVal × Nat) := do
  let (ft, p1) ← ru64le bs pos
  pure (.vFileTimeMs ((ft / 10000 : Nat) - 11644473600000), p1)

/-- Read `k` consecutive u32le values (the SID sub-authority loop). -/
def readU32List (bs : Bytes) : Nat → Nat → Except Nat (List Nat × Nat)
  | 0, p => .ok ([], p)
  | k + 1, p => do
      let (v, p') ← ru32le bs p
      let (vs, p'') ← readU32List bs k p'
      pure (v :: vs, p'')

/-- parseSid: revision u8, count u8, 6 identifier-authority bytes (bytes 2..5
recombined with signed 32-bit shifts), then count u32le sub-authorities. -/
def parseSid (bs : Bytes) (pos : Nat) : Except Nat (VariantVal × Nat) := do
  let (revision, p1) ← ru8 bs pos
  let (count, p2) ← ru8 bs p1
  let (ia, p3) ← rbytes bs p2 6
  let authority := toInt32 (ia.getD 2 0 * 16777216 + ia.getD 3 0 * 65536 + ia.getD 4 0 * 256 + ia.getD 5 0)
  let (subs, p4) ← readU32List bs count p3
  pure (.vSid revision authority subs, p4)

/-- parseBXml (top level): u32 length prefix then raw bytes (empty object for 0). -/
def parseBXmlTop (bs : Bytes) (pos : Nat) : Except Nat (VariantVal × Nat) := do
  let (len, p1) ← ru32le bs pos
  if len = 0 then pure (.vEmptyObject, p1)
  else do
    let (raw, p2) ← rbytes bs p1 len
    pure (.vBXml raw len none, p2)

/-- parseBXmlWithLength (substitution): declared raw bytes kept with their
absolute base offset for later embedded parsing. -/
def parseBXmlSub (bs : Bytes) (pos declared : Nat) : Except Nat (VariantVal × Nat) :=
  if declared = 0 then .ok (.vBXml [] 0 none, pos)
  else do
    let (raw, p1) ← rbytes bs pos declared
    pure (.vBXml raw declared (some pos), p1)

/-- parseWStringArrayWithLength (substitution): declared blob of UTF-16,
trailing NULs removed, then split on NUL code units. -/
def parseWStringArraySub (bs : Bytes) (pos declared : Nat) : Except Nat (VariantVal × Nat) :=
  if declared = 0 then .ok (.vWStringArray [], pos)
  else do
    let (raw, p1) ← rbytes bs pos declared
    pure (.vWStringArray ((dropTrailingZeros (toCodeUnits raw)).splitOn 0), p1)

/-- Read `k` consecutive length-prefixed WStrings (the top-level array loop). -/
def readWStringList (bs : Bytes) : Nat → Nat → Except Nat (List (List Nat) × Nat)
  | 0, p => .ok ([], p)
  | k + 1, p => do
      let (v, p') ← parseWStringTop bs p
      let cu := match v with | .vWString l => l | _ => []
      let (vs, p'') ← readWStringList bs k p'
      pure (cu :: vs, p'')

/-- parseWStringArray (top level): u32 count then count length-prefixed WStrings. -/
def parseWStringArrayTop (bs : Bytes) (pos : Nat) : Except Nat (VariantVal × Nat) := do
  let (count, p1) ← ru32le bs pos
  let (strs, p2) ← readWStringList bs count p1
  pure (.vWStringArray strs, p2)

/-- The 24 variant type codes the decoder knows (src enums.ts VariantType). -/
def knownVariantTypes : List Nat :=
  [0x00, 0x01, 0x02, 0x03, 0x04, 0x05, 0x06, 0x07, 0x08, 0x09, 0x0a, 0x0b,
   0x0c, 0x0d, 0x0e, 0x0f, 0x10, 0x11, 0x12, 0x13, 0x14, 0x15, 0x21, 0x81]

/-- The switch's default case: an unknown type code with a positive
declared size is skipped as raw bytes; otherwise nothing is read. -/
def variantParseUnknown (bs : Bytes) (s : Option Nat) (pos : Nat) : Except Nat VPOut :=
  match s with
  | some sz =>
      if 0 < sz then do
        let (raw, p) ← rbytes bs pos sz
        pure ⟨.vRaw raw, sz, p⟩
      else pure ⟨.vNull, 0, pos⟩
  | none => pure ⟨.vNull, 0, pos⟩

/-- The interior of VariantValueParser.parse (the try block): returns value,
consumedBytes and the cursor position, or the throw position on an
uncaught reader exception.  The switch is modelled as a dispatch over the
known type codes with `variantParseUnknown` as the default case. -/
def variantParseInner (bs : Bytes) (tz : Int) (t : Nat) (s : Option Nat) (pos : Nat) :
    Except Nat VPOut := do
  if t ∈ knownVariantTypes then
    match t with
    | 0x00 => -- Null: skip the declared bytes (substitution) or nothing (top level)
        match s with
        | some sz =>
            if 0 < sz then
              if pos + sz ≤ bs.length then pure ⟨.vNull, sz, pos + sz⟩ else .error pos
            else pure ⟨.vNull, 0, pos⟩
        | none => pure ⟨.vNull, 0, pos⟩
    | 0x01 =>
        match s with
        | some sz => do
            let (v, p) ← parseWStringSub bs pos sz
            pure ⟨v, p - pos, p⟩
        | none => do
            let (v, p) ← parseWStringTop bs pos
            pure ⟨v, p - pos, p⟩
    | 0x02 =>
        match s with
        | some sz => do
            let (v, p) ← parseStringSub bs pos sz
            pure ⟨v, p - pos, p⟩
        | none => do
            let (v, p) ← parseStringTop bs pos
            pure ⟨v, p - pos, p⟩
    | 0x03 => do let (n, p) ← ru8 bs pos; pure ⟨.vInt (toSigned 1 n), 1, p⟩
    | 0x04 => do let (n, p) ← ru8 bs pos; pure ⟨.vUInt n, 1, p⟩
    | 0x05 => do let (n, p) ← ru16le bs pos; pure ⟨.vInt (toSigned 2 n), 2, p⟩
    | 0x06 => do let (n, p) ← ru16le bs pos; pure ⟨.vUInt n, 2, p⟩
    | 0x07 => do let (n, p) ← ru32le bs pos; pure ⟨.vInt (toSigned 4 n), 4, p⟩
    | 0x08 => do let (n, p) ← ru32le bs pos; pure ⟨.vUInt n, 4, p⟩
    | 0x09 => do let (n, p) ← ru64le bs pos; pure ⟨.vInt (toSigned 8 n), 8, p⟩
    | 0x0a => do let (n, p) ← ru64le bs pos; pure ⟨.vUInt n, 8, p⟩
    | 0x0b => do let (n, p) ← ru32le bs pos; pure ⟨.vFloatBits n, 4, p⟩
    | 0x0c => do let (n, p) ← ru64le bs pos; pure ⟨.vFloatBits n, 8, p⟩
    | 0x0d => do let (n, p) ← ru8 bs pos; pure ⟨.vBool (n ≠ 0), 1, p⟩
    | 0x0e =>
        match s with
        | some sz => do
            let (raw, p) ← rbytes bs pos sz
            pure ⟨.vBinary raw, sz, p⟩
        | none => do
            let (v, p) ← parseBinaryTop bs pos
            pure ⟨v, p - pos, p⟩
    | 0x0f => do let (v, p) ← parseGuid bs pos; pure ⟨v, 16, p⟩
    | 0x10 => do let (n, p) ← ru32le bs pos; pure ⟨.vUInt n, 4, p⟩
    | 0x11 => do let (v, p) ← parseFileTime bs pos; pure ⟨v, 8, p⟩
    | 0x12 => do let (ms, p) ← parseSystemTime bs tz pos; pure ⟨.vSystemTimeMs ms, 16, p⟩
    | 0x13 => do let (v, p) ← parseSid bs pos; pure ⟨v, p - pos, p⟩
    | 0x14 => do let (n, p) ← ru32le bs pos; pure ⟨.vUInt n, 4, p⟩
    | 0x15 => do let (n, p) ← ru64le bs pos; pure ⟨.vUInt n, 8, p⟩
    | 0x21 =>
        match s with
        | some sz => do
            let (v, p) ← parseBXmlSub bs pos sz
            pure ⟨v, sz, p⟩
        | none => do
            let (v, p) ← parseBXmlTop bs pos
            pure ⟨v, p - pos, p⟩
    | 0x81 =>
        match s with
        | some sz => do
            let (v, p) ← parseWStringArraySub bs pos sz
            pure ⟨v, sz, p⟩
        | none => do
            let (v, p) ← parseWStringArrayTop bs pos
            pure ⟨v, p - pos, p⟩
    | _ => variantParseUnknown bs s pos
  else variantParseUnknown bs s pos
/-- VariantValueParser.parse: the try/catch wrapper.  On an exception with a
declared length the catch recovers by seeking `start + expectedLength`
(that seek itself throws when out of range, letting the error escape). -/
def variantParse (bs : Bytes) (tz : Int) (t : Nat) (s : Option Nat) (pos : Nat) :
    Except Nat VPOut :=
  match variantParseInner bs tz t s pos, s with
  | .ok out, _ => .ok out
  | .error _, some sz =>
      if pos + sz ≤ bs.length then .ok ⟨.vNull, sz, pos + sz⟩ else .error pos
  | .error e, none => .error e

/-- Variant types whose substitution decode is driven by the declared size
(the declared length governs exactly how many bytes are consumed):
Null, WString, String, Binary, BXml, WStringArray and unknown codes. -/
def SizeDriven (t : Nat) : Prop :=
  t = 0x00 ∨ t = 0x01 ∨ t = 0x02 ∨ t = 0x0e ∨ t = 0x21 ∨ t = 0x81 ∨ t ∉ knownVariantTypes

instance : DecidablePred SizeDriven := fun t => by
  unfold SizeDriven
  infer_instance

/-- Natural widths of the fixed-width variant types. -/
def fixedWidthOf (t : Nat) : Option Nat :=
  if t = 0x03 ∨ t = 0x04 ∨ t = 0x0d then some 1
  else if t = 0x05 ∨ t = 0x06 then some 2
  else if t = 0x07 ∨ t = 0x08 ∨ t = 0x0b ∨ t = 0x10 ∨ t = 0x14 then some 4
  else if t = 0x09 ∨ t = 0x0a ∨ t = 0x0c ∨ t = 0x11 ∨ t = 0x15 then some 8
  else if t = 0x0f ∨ t = 0x12 then some 16
  else none

/-! ## BXML node machinery (NodeFactory, node-specialisations, TemplateNode)

One parsed node is summarised by its raw token byte, its kind (the class the
factory constructed) and its declared length (the `.length` getter).  The
reader position is threaded explicitly; recursion (elements containing
attributes and children) is fuelled, every recursive call and loop
iteration spending one unit.  All sixteen masked token values are
dispatched, mirroring NodeFactory.fromStream; the factory's
UnimplementedNode default and FragmentHeader case are unreachable because
the dispatch is on `token & 0x0F`. -/

inductive NodeKind where
  | endOfStream
  | openStartElement
  | closeStartElement
  | closeEmptyElement
  | closeElement
  | valueText
  | attribute
  | cdataSection
  | charRef
  | entityRef
  | piTarget
  | piData
  | templateInstance
  | normalSubstitution
  | optionalSubstitution
  | startOfStream
deriving DecidableEq, Repr

/-- Summary of a constructed BXML node: raw token byte, kind, declared
length (`node.length`). -/
structure PNode where
  tok : Nat
  kind : NodeKind
  len : Nat
deriving DecidableEq, Repr

/-- Fields of a NameStringNode parsed from the chunk (via a cloned reader). -/
structure NameStringRec where
  nextOfs : Nat
  hash : Nat
  strLen : Nat
  len : Nat
deriving DecidableEq, Repr

/-- ChunkHeader.addString body: clone a reader over the full bytes, seek
`chunk.offset + offset`, parse next u32, hash u16 and the length-prefixed
UTF-16 name; node length is `8 + 2*length + 2`. -/
def nameStringParse (bs : Bytes) (chunkOfs offset : Nat) : Except Nat NameStringRec :=
  if chunkOfs + offset ≤ bs.length then do
    let (next, p1) ← ru32le bs (chunkOfs + offset)
    let (h, p2) ← ru16le bs p1
    let (slen, p3) ← ru16le bs p2
    let (_cu, _p4) ← rbytes bs p3 (2 * slen)
    pure ⟨next, h, slen, 8 + 2 * slen + 2⟩
  else .error (chunkOfs + offset)

/-- Header fields of an OpenStartElementNode, with the tag length computed
exactly as in the constructor: 11 bytes of fixed header, 4 more when flag
0x04 of the token's high nibble is set, plus the inline name-string length
when `string_offset` points past the node's own chunk-relative offset. -/
structure OseHdr where
  token : Nat
  unknown0 : Nat
  size : Nat
  stringOffset : Nat
  tagLength : Nat
  posAfterHeader : Nat
deriving DecidableEq, Repr

/-- OpenStartElementNode constructor up to read_internal_structure: the
token at `pos` was consumed by the factory; unknown0 u16, size u32 and
string_offset u32 follow; the inline name (if any) is parsed from a cloned
reader by chunk.addString and only contributes to the tag length. -/
def oseHeader (bs : Bytes) (chunkOfs pos : Nat) : Except Nat OseHdr := do
  let (u0, p1) ← ru16le bs (pos + 1)
  let (size, p2) ← ru32le bs p1
  let (so, p3) ← ru32le bs p2
  let token := u8At bs pos
  let base := 11 + (if (token / 16) &&& 4 ≠ 0 then 4 else 0)
  if (so : Int) > (pos : Int) - (chunkOfs : Int) then do
    let ns ← nameStringParse bs chunkOfs so
    pure ⟨token, u0, size, so, base + ns.len, p3⟩
  else
    pure ⟨token, u0, size, so, base, p3⟩

mutual

/-- NodeFactory.fromStream: consume the token byte at `pos` and construct
the node for `token & 0x0F`, returning its summary and the reader position
after construction.  Errors are reader throws escaping the constructor. -/
def nodeStep (bs : Bytes) (chunkOfs : Nat) (tz : Int) :
    Nat → Bool → Nat → Except Nat (PNode × Nat)
  | 0, _, pos => .error pos
  | fuel + 1, embedded, pos => do
    let (tok, p1) ← ru8 bs pos
    match tok % 16 with
    | 0x00 => pure (⟨tok, .endOfStream, 1⟩, p1)
    | 0x01 => do
        let hdr ← oseHeader bs chunkOfs pos
        let contentStart := pos + hdr.tagLength
        if contentStart ≤ bs.length then
          let pFinal := oseStructure bs chunkOfs tz fuel (contentStart + hdr.size) contentStart
          pure (⟨tok, .openStartElement, hdr.tagLength⟩, pFinal)
        else .error hdr.posAfterHeader
    | 0x02 => pure (⟨tok, .closeStartElement, 1⟩, p1)
    | 0x03 => pure (⟨tok, .closeEmptyElement, 1⟩, p1)
    | 0x04 => pure (⟨tok, .closeElement, 1⟩, p1)
    | 0x05 => do
        let (vt, p2) ← ru8 bs p1
        match variantParse bs tz vt none p2 with
        | .ok out => pure (⟨tok, .valueText, 2 + out.consumed⟩, out.pos)
        | .error e => pure (⟨tok, .valueText, 2⟩, e)
    | 0x06 => do
        let (so, p2) ← ru32le bs p1
        if (so : Int) > (pos : Int) - (chunkOfs : Int) then do
          let (_next, p3) ← ru32le bs p2
          let (_h, p4) ← ru16le bs p3
          let (slen, p5) ← ru16le bs p4
          let p6 ← (if 0 < slen then do
              let (_raw, q1) ← rbytes bs p5 (2 * slen)
              let (_term, q2) ← ru16le bs q1
              pure q2
            else pure p5)
          let nameLen := 4 + 2 + 2 + slen * 2 + 2
          attrFinish bs chunkOfs tz fuel pos nameLen tok p6
        else
          attrFinish bs chunkOfs tz fuel pos 0 tok p2
    | 0x07 => do
        let (slen, p2) ← ru16le bs p1
        pure (⟨tok, .cdataSection, 3 + slen⟩, p2)
    | 0x08 => do
        let (_entity, p2) ← ru16le bs p1
        pure (⟨tok, .charRef, 3⟩, p2)
    | 0x09 => do
        let (_so, p2) ← ru32le bs p1
        pure (⟨tok, .entityRef, 5⟩, p2)
    | 0x0a => do
        let (slen, p2) ← ru16le bs p1
        let (_cu, p3) ← rbytes bs p2 (2 * slen)
        pure (⟨tok, .piTarget, 1 + 2 + 2 * slen⟩, p3)
    | 0x0b => do
        let (slen, p2) ← ru16le bs p1
        let (_cu, p3) ← rbytes bs p2 (2 * slen)
        pure (⟨tok, .piData, 1 + 2 + 2 * slen⟩, p3)
    | 0x0c => do
        let (_u0, p2) ← ru8 bs p1
        let (_tid, p3) ← ru32le bs p2
        let (tofs, p4) ← ru32le bs p3
        let dl :=
          if (tofs : Int) > (pos : Int) - (chunkOfs : Int) then
            match templateNodeParse bs chunkOfs tz fuel tofs with
            | .ok (dlen, _) => 24 + dlen
            | .error _ => 0
          else 0
        let nlen := 10 + dl
        if embedded then pure (⟨tok, .templateInstance, nlen⟩, p4)
        else if p4 = pos + nlen then pure (⟨tok, .templateInstance, nlen⟩, p4)
        else if pos + nlen ≤ bs.length then pure (⟨tok, .templateInstance, nlen⟩, pos + nlen)
        else .error p4
    | 0x0d => do
        let (_sid, p2) ← ru16le bs p1
        let (_vt, p3) ← ru8 bs p2
        pure (⟨tok, .normalSubstitution, 4⟩, p3)
    | 0x0e => do
        let (_sid, p2) ← ru16le bs p1
        let (_vt, p3) ← ru8 bs p2
        pure (⟨tok, .optionalSubstitution, 4⟩, p3)
    | _ => do
        let (_b, p2) ← ru8 bs p1
        let (_w, p3) ← ru16le bs p2
        pure (⟨tok, .startOfStream, 4⟩, p3)

  termination_by structural fuel => fuel

/-- AttributeNode tail: seek to the computed child position and parse the
single value child (its failure is caught, leaving the reader at the throw
position); declared length is `5 + inline_name_length + child.length`. -/
def attrFinish (bs : Bytes) (chunkOfs : Nat) (tz : Int) :
    Nat → Nat → Nat → Nat → Nat → Except Nat (PNode × Nat)
  | 0, _, _, _, pos => .error pos
  | fuel + 1, startOffset, nameLen, tok, _posAfterReads =>
      let childPos := startOffset + 5 + nameLen
      if childPos ≤ bs.length then
        if childPos < bs.length then
          match nodeStep bs chunkOfs tz fuel false childPos with
          | .ok (child, p') => .ok (⟨tok, .attribute, 5 + nameLen + child.len⟩, p')
          | .error e => .ok (⟨tok, .attribute, 5 + nameLen⟩, e)
        else .ok (⟨tok, .attribute, 5 + nameLen⟩, childPos)
      else .error childPos

  termination_by structural fuel => fuel

/-- OpenStartElementNode.read_internal_structure after the initial seek:
attribute loop, then CloseStartElement + children + CloseElement, or
CloseEmptyElement.  All reader throws in here are caught by the
constructor's try blocks, so only a final position comes back. -/
def oseStructure (bs : Bytes) (chunkOfs : Nat) (tz : Int) :
    Nat → Nat → Nat → Nat
  | 0, _, pos => pos
  | fuel + 1, contentEnd, pos =>
      let pA := oseAttrLoop bs chunkOfs tz fuel contentEnd pos
      if pA < contentEnd then
        match rpeek bs pA with
        | .error _ => pA
        | .ok t =>
          if t = 0x02 then
            match nodeStep bs chunkOfs tz fuel false pA with
            | .error e => e
            | .ok (_, p1) =>
              let p2 := oseChildLoop bs chunkOfs tz fuel contentEnd p1
              if p2 < contentEnd ∧ p2 < bs.length then
                match rpeek bs p2 with
                | .error _ => p2
                | .ok t2 =>
                  if t2 = 0x04 then
                    match nodeStep bs chunkOfs tz fuel false p2 with
                    | .ok (_, p3) => p3
                    | .error e => e
                  else p2
              else p2
          else if t = 0x03 then
            match nodeStep bs chunkOfs tz fuel false pA with
            | .ok (_, p1) => p1
            | .error e => e
          else pA
      else pA

  termination_by structural fuel => fuel

/-- The attribute loop: keep constructing attribute nodes while the peeked
token's low nibble is 0x06 and the content budget is not exhausted. -/
def oseAttrLoop (bs : Bytes) (chunkOfs : Nat) (tz : Int) :
    Nat → Nat → Nat → Nat
  | 0, _, pos => pos
  | fuel + 1, contentEnd, pos =>
      if pos < contentEnd then
        if pos < bs.length then
          if u8At bs pos % 16 = 0x06 then
            match nodeStep bs chunkOfs tz fuel false pos with
            | .ok (_, p') => oseAttrLoop bs chunkOfs tz fuel contentEnd p'
            | .error e => e
          else pos
        else pos
      else pos

  termination_by structural fuel => fuel

/-- The element child loop: construct children until a CloseElement byte is
peeked, the content budget is exhausted, or a child carries the raw
EndOfStream token byte. -/
def oseChildLoop (bs : Bytes) (chunkOfs : Nat) (tz : Int) :
    Nat → Nat → Nat → Nat
  | 0, _, pos => pos
  | fuel + 1, contentEnd, pos =>
      if pos < contentEnd then
        if pos < bs.length then
          match rpeek bs pos with
          | .error _ => pos
          | .ok t =>
            if t = 0x04 then pos
            else
              match nodeStep bs chunkOfs tz fuel false pos with
              | .error e => e
              | .ok (child, p') =>
                  if child.tok = 0x00 then p'
                  else oseChildLoop bs chunkOfs tz fuel contentEnd p'
        else pos
      else pos

  termination_by structural fuel => fuel

/-- TemplateNode constructor on a given reader: header at
`chunk.offset + offset` (next u32, id u32, overlapping 16-byte guid,
data_length u32 at +20), then the template's BXML children.  Returns the
data length and the reader's final position. -/
def templateNodeParse (bs : Bytes) (chunkOfs : Nat) (tz : Int) :
    Nat → Nat → Except Nat (Nat × Nat)
  | 0, offset => .error (chunkOfs + offset)
  | fuel + 1, offset => do
      let absOfs := chunkOfs + offset
      if absOfs ≤ bs.length then do
        let (_next, p1) ← ru32le bs absOfs
        let (_tid, _p2) ← ru32le bs p1
        let (_guid, p3) ← rbytes bs (absOfs + 4) 16
        let (dataLength, p4) ← ru32le bs p3
        if dataLength = 0 then pure (dataLength, p4)
        else do
          let pEnd ← templateChildLoop bs chunkOfs tz fuel (p4 + dataLength) p4
          pure (dataLength, pEnd)
      else .error absOfs

  termination_by structural fuel => fuel

/-- TemplateNode.parseChildren loop: the loop-head peek is unprotected (its
throw escapes the constructor); a raw 0x00 byte is parsed as the final
EndOfStream child; factory errors are caught and end the loop. -/
def templateChildLoop (bs : Bytes) (chunkOfs : Nat) (tz : Int) :
    Nat → Nat → Nat → Except Nat Nat
  | 0, _, pos => .ok pos
  | fuel + 1, dataEnd, pos =>
      if pos < dataEnd then
        if pos < bs.length then
          if u8At bs pos = 0x00 then .ok (pos + 1)
          else
            match nodeStep bs chunkOfs tz fuel false pos with
            | .ok (_, p') => templateChildLoop bs chunkOfs tz fuel dataEnd p'
            | .error e => .ok e
        else .error pos
      else .ok pos

  termination_by structural fuel => fuel
end

/-! ## RootNode: Phase 1 (children) and Phase 2 (substitutions) — Record.ts -/

/-- Phase 1 of the RootNode constructor: parse children until an
EndOfStream byte is peeked, the record's BXML region ends, the buffer
ends, or a constructor throws (caught, loop broken).  Returns the children
in order, the accumulated `_parsedBxmlChildrenLength`, and the final
reader position. -/
def rootPhase1 (bs : Bytes) (chunkOfs : Nat) (tz : Int) :
    Nat → Nat → Nat → List PNode × Nat × Nat
  | 0, _, pos => ([], 0, pos)
  | fuel + 1, endPos, pos =>
      if pos < endPos then
        if pos < bs.length then
          if u8At bs pos = 0x00 then ([], 0, pos)
          else
            match nodeStep bs chunkOfs tz fuel false pos with
            | .error e => ([], 0, e)
            | .ok (node, p') =>
                let (rest, restLen, fin) := rootPhase1 bs chunkOfs tz fuel endPos p'
                (node :: rest, node.len + restLen, fin)
        else ([], 0, pos)
      else ([], 0, pos)

/-- One parsed substitution declaration: (size, type); the reserved byte is
read and discarded. -/
abbrev SubDecl := Nat × Nat

/-- The Phase 2 declaration loop: up to `count` entries, each requiring
4 readable bytes (`size u16le`, `type u8`, reserved `u8`); a short buffer
breaks the loop. -/
def subDeclLoop (bs : Bytes) : Nat → Nat → List SubDecl × Nat
  | 0, pos => ([], pos)
  | k + 1, pos =>
      if pos + 4 ≤ bs.length then
        let d : SubDecl := (u16leAt bs pos, u8At bs (pos + 2))
        let (rest, p') := subDeclLoop bs k (pos + 4)
        (d :: rest, p')
      else ([], pos)

/-- The Phase 2 value loop: each declaration's value is parsed in
substitution mode when `size` more bytes remain, else the loop breaks.
Under the guard the substitution-mode parse cannot throw, but the code
would let a throw escape the constructor, hence the Except. -/
def subValueLoop (bs : Bytes) (tz : Int) : List SubDecl → Nat → Except Nat (List VariantVal × Nat)
  | [], pos => .ok ([], pos)
  | (sz, ty) :: rest, pos =>
      if pos + sz ≤ bs.length then
        match variantParse bs tz ty (some sz) pos with
        | .ok out => do
            let (vs, p') ← subValueLoop bs tz rest out.pos
            pure (out.value :: vs, p')
        | .error e => .error e
      else .ok ([], pos)

/-- What Phase 2 read at the substitution header, when the 4 count bytes
were in range. -/
structure Phase2Read where
  countLE : Nat
  countBE : Nat
  countUsed : Nat
  decls : List SubDecl
  values : List VariantVal
deriving DecidableEq, Repr

/-- Result of Phase 2: the seek target and (if in range) the header read. -/
structure Phase2Out where
  sought : Nat
  read : Option Phase2Read
deriving DecidableEq, Repr

/-- Phase 2 of the RootNode constructor: seek to
`rootNodeStartOffset + parsedChildrenLength - 1`, read the count as both
u32le and u32be, prefer the big-endian value when it lies strictly between
0 and 1024, and parse declarations and values when the chosen count does. -/
def rootPhase2 (bs : Bytes) (tz : Int) (start len : Nat) : Except Nat Phase2Out :=
  let subOffset := start + len - 1
  if subOffset ≤ bs.length then
    if subOffset + 4 ≤ bs.length then
      let le := u32leAt bs subOffset
      let be := u32beAt bs subOffset
      let count := if 0 < be ∧ be < 1024 then be else le
      if 0 < count ∧ count < 1024 then
        let dres := subDeclLoop bs count (subOffset + 4)
        match subValueLoop bs tz dres.1 dres.2 with
        | .ok (vs, _) => .ok ⟨subOffset, some ⟨le, be, count, dres.1, vs⟩⟩
        | .error e => .error e
      else .ok ⟨subOffset, some ⟨le, be, count, [], []⟩⟩
    else .ok ⟨subOffset, none⟩
  else .error subOffset

/-- Record.root(): run Phase 1 from `recordOffset + 0x18` bounded by the
record's declared BXML length (`size - 0x18`), then Phase 2. -/
structure RootParseOut where
  children : List PNode
  childrenLen : Nat
  phase2 : Except Nat Phase2Out
deriving Repr

/-- The full RootNode constructor on a record at `recordOffset`. -/
def recordRootParse (bs : Bytes) (chunkOfs : Nat) (tz : Int) (fuel recordOffset : Nat) :
    RootParseOut :=
  let size := u32leAt bs (recordOffset + 4)
  let recordDataOffset := recordOffset + 0x18
  let endPos := recordDataOffset + (size - 0x18)
  let r1 := rootPhase1 bs chunkOfs tz fuel endPos recordDataOffset
  ⟨r1.1, r1.2.1, rootPhase2 bs tz recordDataOffset r1.2.1⟩

/-! ## Embedded BXML parsing — BXmlParser.parseEmbeddedRootNodeAtOffset -/

/-- The embedded token loop: parse nodes from `baseOffset` while before
`baseOffset + length + 64`, accumulating declared lengths of non-EndOfStream
nodes, and stopping immediately after a TemplateInstance or EndOfStream
node, a non-advancing node, or a constructor throw. -/
def embedLoop (bs : Bytes) (chunkOfs : Nat) (tz : Int) :
    Nat → Nat → Nat → List PNode × Nat
  | 0, _, _ => ([], 0)
  | fuel + 1, limit, pos =>
      if pos < limit then
        match nodeStep bs chunkOfs tz fuel true pos with
        | .error _ => ([], 0)
        | .ok (node, p') =>
            let d := if node.kind ≠ NodeKind.endOfStream then node.len else 0
            if node.kind = NodeKind.templateInstance then ([node], d)
            else if node.kind = NodeKind.endOfStream then ([node], d)
            else if p' ≤ pos then ([node], d)
            else
              let r := embedLoop bs chunkOfs tz fuel limit p'
              (node :: r.1, d + r.2)
      else ([], 0)

/-- The embedded substitution-header declaration loop (no bounds guard; a
short buffer throws into the enclosing catch). -/
def embDeclLoop (bs : Bytes) : Nat → Nat → Except Nat (List SubDecl × Nat)
  | 0, pos => .ok ([], pos)
  | k + 1, pos => do
      let (sz, p1) ← ru16le bs pos
      let (ty, p2) ← ru8 bs p1
      let (_reserved, p3) ← ru8 bs p2
      let (rest, p') ← embDeclLoop bs k p3
      pure ((sz, ty) :: rest, p')

/-- The embedded substitution value loop (no bounds guard). -/
def embValueLoop (bs : Bytes) (tz : Int) : List SubDecl → Nat → Except Nat (List VariantVal × Nat)
  | [], pos => .ok ([], pos)
  | (sz, ty) :: rest, pos =>
      match variantParse bs tz ty (some sz) pos with
      | .ok out => do
          let (vs, p') ← embValueLoop bs tz rest out.pos
          pure (out.value :: vs, p')
      | .error e => .error e

/-- Result of BXmlParser.parseEmbeddedRootNodeAtOffset. -/
structure EmbedOut where
  nodes : List PNode
  declared : Nat
  countPos : Nat
  subs : Option (Nat × List SubDecl × List VariantVal)
deriving Repr

/-- parseEmbeddedRootNodeAtOffset: run the embedded token loop, then read
the substitution header at `baseOffset + declared` (no −1 correction);
any throw in the header block leaves the substitutions empty. -/
def parseEmbeddedAtOffset (bs : Bytes) (chunkOfs : Nat) (tz : Int)
    (fuel baseOffset length : Nat) : EmbedOut :=
  let r := embedLoop bs chunkOfs tz fuel (baseOffset + length + 64) baseOffset
  let nodes := r.1
  let declared := r.2
  let countPos := baseOffset + declared
  let subs :=
    if countPos ≤ bs.length then
      match ru32le bs countPos with
      | .error _ => none
      | .ok (count, p1) =>
          match embDeclLoop bs count p1 with
          | .error _ => none
          | .ok (ds, p2) =>
              match embValueLoop bs tz ds p2 with
              | .error _ => none
              | .ok (vs, _) => some (count, ds, vs)
    else none
  ⟨nodes, declared, countPos, subs⟩

/-! ## ChunkHeader lookups — addString / addTemplate / getTemplate (C4)

The shared reader `this.r` is modelled by its position `mainPos`; lookups
that clone the reader operate on the same bytes without touching it. -/

/-- Chunk lookup state: cached string offsets, cached templates (offset and
data length) and the shared reader's position. -/
structure ChunkState where
  strings : List Nat
  templates : List (Nat × Nat)
  mainPos : Nat
deriving Repr

/-- ChunkHeader.addString: parse the NameString through a cloned reader
over the full byte range; the shared reader is not consulted. -/
def chunkAddString (bs : Bytes) (chunkOfs : Nat) (st : ChunkState) (offset : Nat) :
    ChunkState × Option NameStringRec :=
  match nameStringParse bs chunkOfs offset with
  | .ok ns => (⟨offset :: st.strings, st.templates, st.mainPos⟩, some ns)
  | .error _ => (st, none)

/-- ChunkHeader.addTemplate: on a cache miss, parse the TemplateNode
through a cloned reader; the shared reader is not consulted. -/
def chunkAddTemplate (bs : Bytes) (chunkOfs : Nat) (tz : Int) (fuel : Nat)
    (st : ChunkState) (offset : Nat) : ChunkState × Option Nat :=
  match st.templates.lookup offset with
  | some dl => (st, some dl)
  | none =>
      match templateNodeParse bs chunkOfs tz fuel offset with
      | .ok (dl, _) => (⟨st.strings, (offset, dl) :: st.templates, st.mainPos⟩, some dl)
      | .error _ => (st, none)

/-- ChunkHeader.getTemplate: on a cache miss, parse the TemplateNode with
the SHARED reader (`new TemplateNode(this.r, offset, this)`), leaving it
wherever the parse (or the caught throw) ends. -/
def chunkGetTemplate (bs : Bytes) (chunkOfs : Nat) (tz : Int) (fuel : Nat)
    (st : ChunkState) (offset : Nat) : ChunkState × Option Nat :=
  match st.templates.lookup offset with
  | some dl => (st, some dl)
  | none =>
      match templateNodeParse bs chunkOfs tz fuel offset with
      | .ok (dl, finalPos) =>
          (⟨st.strings, (offset, dl) :: st.templates, finalPos⟩, some dl)
      | .error e => (⟨st.strings, st.templates, e⟩, none)

/-! ## C8 — ActualTemplateNode.buildArgsFromLayout / formatForMessage

Substitution values reaching the message-argument builder are modelled by
`JsVal` (null/undefined, string, number, bigint, array); the Date and
opaque-object cases of `formatForMessage` are not needed by any claim and
are left out of the value universe. -/

inductive JsVal where
  | jNull
  | jStr (s : String)
  | jNum (n : Int)
  | jBig (n : Int)
  | jArr (l : List JsVal)
deriving Repr

mutual

/-- formatForMessage: empty for null, pass strings through, stringify
numbers and bigints, and join arrays with a comma and space. -/
def formatForMessage : JsVal → String
  | .jNull => ""
  | .jStr s => s
  | .jNum n => toString n
  | .jBig n => toString n
  | .jArr l => String.intercalate ", " (formatForMessageList l)

/-- Elementwise formatting of an array value. -/
def formatForMessageList : List JsVal → List String
  | [] => []
  | v :: rest => formatForMessage v :: formatForMessageList rest

end

/-- One piece of a layout entry: literal text or a substitution reference. -/
inductive LPart where
  | lit (text : String)
  | sub (index : Nat)
deriving DecidableEq, Repr

/-- One layout entry (a `<Data>` element's name and ordered parts). -/
structure LEntry where
  name : Option String
  parts : List LPart
deriving DecidableEq, Repr

/-- Whether a part is a substitution reference. -/
def isSubPart : LPart → Bool
  | .sub _ => true
  | .lit _ => false

/-- The substitution value referenced by index, or the empty string
when the index is out of range (`idx < substitutions.length ? ... : ''`). -/
def subValueAt (subs : List JsVal) (idx : Nat) : JsVal :=
  if h : idx < subs.length then subs.get ⟨idx, h⟩ else .jStr ""

/-- Joined literal text of an entry (`filter lit`, `map text`, `join('')`). -/
def entryLitText (parts : List LPart) : String :=
  String.join (parts.filterMap (fun p => match p with | .lit t => some t | .sub _ => none))

/-- Push one argument; with a truthy max, an early return fires as soon as
the output reaches the cap (`out.length >= maxPlaceholders`). -/
def pushArg (mx : Nat) (out : List String) (s : String) : List String × Bool :=
  let out' := out ++ [s]
  if mx ≠ 0 ∧ mx ≤ out'.length then (out'.take mx, true) else (out', false)

/-- The inner loop of buildArgsFromLayout over one entry's parts: push the
formatted value of every substitution reference. -/
def buildArgsParts (subs : List JsVal) (mx : Nat) : List LPart → List String → List String × Bool
  | [], out => (out, false)
  | .lit _ :: rest, out => buildArgsParts subs mx rest out
  | .sub idx :: rest, out =>
      let r := pushArg mx out (formatForMessage (subValueAt subs idx))
      if r.2 then (r.1, true) else buildArgsParts subs mx rest r.1

/-- The outer loop of buildArgsFromLayout: entries with a substitution
reference contribute their referenced values; literal-only entries
contribute their joined text (empties preserved); a truthy max truncates. -/
def buildArgsEntries (subs : List JsVal) (mx : Nat) : List LEntry → List String → List String
  | [], out => if mx ≠ 0 ∧ mx < out.length then out.take mx else out
  | e :: rest, out =>
      if e.parts.any isSubPart then
        let r := buildArgsParts subs mx e.parts out
        if r.2 then r.1 else buildArgsEntries subs mx rest r.1
      else
        let r := pushArg mx out (entryLitText e.parts)
        if r.2 then r.1 else buildArgsEntries subs mx rest r.1

/-- ActualTemplateNode.buildArgsFromLayout; `mx = 0` models the falsy
`maxPlaceholders` (absent or zero). -/
def buildArgsFromLayout (layout : List LEntry) (subs : List JsVal) (mx : Nat) : List String :=
  buildArgsEntries subs mx layout []

/-! ## C9 — applyMessageTemplate (src/api.ts)

The five sequential regex replaces are modelled as left-to-right scans
over `List Char`; a replacement is emitted into the output and scanning
resumes after the match in the input, exactly as `String.replace` with a
global regex behaves (replacements are not rescanned). -/

/-- The percent character. -/
def pctChar : Char := '%'

/-- The exclamation-mark character. -/
def bangChar : Char := '!'

/-- The literal n of the %n newline escape. -/
def letterN : Char := 'n'

/-- The newline character substituted for %n. -/
def nlChar : Char := Char.ofNat 10

/-- Opening curly brace. -/
def lbChar : Char := Char.ofNat 123

/-- Closing curly brace. -/
def rbChar : Char := Char.ofNat 125

/-- The [A-Za-z] regex class. -/
def isAlphaChar (c : Char) : Bool :=
  (65 ≤ c.toNat && c.toNat ≤ 90) || (97 ≤ c.toNat && c.toNat ≤ 122)

/-- `args[i] ?? ''` for a 1-based placeholder number N (i = N − 1). -/
def argAt1 (args : List (List Char)) (n : Nat) : List Char :=
  if h : 1 ≤ n ∧ n ≤ args.length then args.get ⟨n - 1, by omega⟩ else []

/-- `args[i] ?? ''` for a 0-based placeholder number N. -/
def argAt0 (args : List (List Char)) (n : Nat) : List Char :=
  if h : n < args.length then args.get ⟨n, h⟩ else []

/-- Replace every `%N!fmt!` by argument N (1-based), dropping the format. -/
def pass1Go (args : List (List Char)) : Nat → List Char → List Char
  | 0, s => s
  | _ + 1, [] => []
  | fuel + 1, c :: rest =>
      if c = pctChar then
        let ds := rest.takeWhile isDig
        if ds.isEmpty then c :: pass1Go args fuel rest
        else
          let r2 := rest.drop ds.length
          match r2.head? with
          | some c2 =>
              if c2 = bangChar then
                let r3 := r2.tail
                let fmt := r3.takeWhile (fun x => !(x = bangChar))
                let r4 := r3.drop fmt.length
                match r4.head? with
                | some c3 =>
                    if c3 = bangChar then
                      argAt1 args (digitsToNat ds) ++ pass1Go args fuel r4.tail
                    else c :: pass1Go args fuel rest
                | none => c :: pass1Go args fuel rest
              else c :: pass1Go args fuel rest
          | none => c :: pass1Go args fuel rest
      else c :: pass1Go args fuel rest

/-- Replace every `%N` by argument N (1-based). -/
def pass2Go (args : List (List Char)) : Nat → List Char → List Char
  | 0, s => s
  | _ + 1, [] => []
  | fuel + 1, c :: rest =>
      if c = pctChar then
        let ds := rest.takeWhile isDig
        if ds.isEmpty then c :: pass2Go args fuel rest
        else argAt1 args (digitsToNat ds) ++ pass2Go args fuel (rest.drop ds.length)
      else c :: pass2Go args fuel rest

/-- Replace every `%n` by a newline. -/
def pass3Go : Nat → List Char → List Char
  | 0, s => s
  | _ + 1, [] => []
  | fuel + 1, c :: rest =>
      if c = pctChar ∧ rest.head? = some letterN then nlChar :: pass3Go fuel rest.tail
      else c :: pass3Go fuel rest

/-- Replace every brace-delimited 0-based placeholder by its argument. -/
def pass4Go (args : List (List Char)) : Nat → List Char → List Char
  | 0, s => s
  | _ + 1, [] => []
  | fuel + 1, c :: rest =>
      if c = lbChar then
        let ds := rest.takeWhile isDig
        if ds.isEmpty then c :: pass4Go args fuel rest
        else
          let r2 := rest.drop ds.length
          if r2.head? = some rbChar then
            argAt0 args (digitsToNat ds) ++ pass4Go args fuel r2.tail
          else c :: pass4Go args fuel rest
      else c :: pass4Go args fuel rest

/-- Strip every residual bang-delimited alphabetic format token. -/
def pass5Go : Nat → List Char → List Char
  | 0, s => s
  | _ + 1, [] => []
  | fuel + 1, c :: rest =>
      if c = bangChar then
        let as := rest.takeWhile isAlphaChar
        if as.isEmpty then c :: pass5Go fuel rest
        else
          let r2 := rest.drop as.length
          if r2.head? = some bangChar then pass5Go fuel r2.tail
          else c :: pass5Go fuel rest
      else c :: pass5Go fuel rest

/-- applyMessageTemplate: the five replaces in source order. -/
def applyMessageTemplate (t : List Char) (args : List (List Char)) : List Char :=
  let s1 := pass1Go args t.length t
  let s2 := pass2Go args s1.length s1
  let s3 := pass3Go s2.length s2
  let s4 := pass4Go args s3.length s3
  pass5Go s4.length s4

/-- Every percent sign in the template is immediately followed by a digit. -/
def pctOk : List Char → Bool
  | [] => true
  | c :: rest =>
      (if c = pctChar then (match rest.head? with | some d => isDig d | none => false) else true)
        && pctOk rest

/-! ## Concrete inputs used by witnesses and counterexamples -/

/-- A 31-byte record: magic 0x2a2a, size 31, zero record number and
timestamp, BXML data = StartOfStream then an EndOfStream byte, laid out so
that the four bytes at the substitution-count position are 00 00 01 00. -/
def c1bytes : Bytes :=
  [0x2a, 0x2a, 0, 0, 31, 0, 0, 0,
   0, 0, 0, 0, 0, 0, 0, 0,
   0, 0, 0, 0, 0, 0, 0, 0,
   0x0F, 0, 0, 0, 0, 1, 0]

/-- The Phase 2 result of parsing `c1bytes`: sought offset 27, big-endian
count 256 preferred over the little-endian 65536, no declarations in range. -/
def c1p2 : Phase2Out := ⟨27, some ⟨65536, 256, 256, [], []⟩⟩

/-- An OpenStartElement at offset 0 with an inline name of one code unit:
token 0x01, unknown0, size 2, string_offset 12, then the name string
(next u32, hash u16, length u16 = 1, one UTF-16 code unit, terminator). -/
def c2bytes : Bytes :=
  [0x01, 0, 0, 2, 0, 0, 0, 12, 0, 0, 0, 0, 0, 0, 0, 0, 0, 0, 1, 0, 65, 0, 0, 0]

/-- An embedded fragment: StartOfStream, then a TemplateInstance whose
template offset 0 is not resident, followed by spare bytes. -/
def c3bytes : Bytes :=
  [0x0F, 0, 0, 0, 0x0C, 0, 1, 0, 0, 0, 0, 0, 0, 0, 9, 9, 9, 9]

/-- Twenty-four zero bytes: a template header whose data_length is 0. -/
def c4bytes : Bytes := List.replicate 24 0

/-- Twenty-four zero bytes, enough for a 20-byte declared Guid read. -/
def c5bytes : Bytes := List.replicate 24 0

/-- SYSTEMTIME fields for 2024-01-15 10:30:45.123 (year 2024 = 0x07E8,
month 1, dayOfWeek 1, day 15, hour 10, minute 30, second 45, ms 123). -/
def c7bytes : Bytes :=
  [232, 7, 1, 0, 1, 0, 15, 0, 10, 0, 30, 0, 45, 0, 123, 0]

/-- The arguments contributed by one entry's parts: one formatted value
per substitution reference, in order. -/
def partsSpec (subs : List JsVal) (parts : List LPart) : List String :=
  parts.filterMap (fun p => match p with
    | .sub i => some (formatForMessage (subValueAt subs i))
    | .lit _ => none)

/-- The arguments contributed by one entry: its referenced values when it
has any substitution reference, else its joined literal text. -/
def entrySpec (subs : List JsVal) (e : LEntry) : List String :=
  if e.parts.any isSubPart then partsSpec subs e.parts else [entryLitText e.parts]

/-- Concatenation of every entry's contribution, in layout order. -/
def buildArgsSpec (subs : List JsVal) : List LEntry → List String
  | [] => []
  | e :: rest => entrySpec subs e ++ buildArgsSpec subs rest

/-! # Theorems -/

/-- Reduction helper: pure into Except is ok. -/
@[simp] theorem pureOk {α ε : Type} (a : α) : (pure a : Except ε α) = .ok a := rfl

/-- Reduction helper: bind on a successful Except result. -/
@[simp] theorem okBind {α β ε : Type} (a : α) (f : α → Except ε β) :
    (Except.ok a : Except ε α) >>= f = f a := rfl

/-- Reduction helper: bind on a failed Except result. -/
@[simp] theorem errBind {α β ε : Type} (e : ε) (f : α → Except ε β) :
    (Except.error e : Except ε α) >>= f = .error e := rfl

/-- Reduction helper: map over a successful Except result. -/
@[simp] theorem okMap {α β ε : Type} (a : α) (f : α → β) :
    (f <$> (Except.ok a : Except ε α)) = .ok (f a) := rfl

/-- Reduction helper: map over a failed Except result. -/
@[simp] theorem errMap {α β ε : Type} (e : ε) (f : α → β) :
    (f <$> (Except.error e : Except ε α)) = .error e := rfl

/-- C10: in the assembled selection, argsUsed is min(args, placeholders)
for a template with at least one placeholder, so fit is never overflow
there; fit = overflow holds exactly for a zero-placeholder template
combined with a non-empty argument vector. -/
theorem C10_overflow_only_zero_placeholders (need argsLen : Nat) :
    (1 ≤ need → fitOf need argsLen ≠ Fit.overflow) ∧
    (fitOf need argsLen = Fit.overflow ↔ need = 0 ∧ 0 < argsLen) := by
  unfold fitOf argsUsedOf
  by_cases hp : 0 < need
  · simp only [if_pos hp]
    constructor
    · intro _
      split_ifs with h1 h2
      · simp
      · simp
      · omega
    · constructor
      · intro h
        split_ifs at h with h1 h2 <;> simp_all
      · rintro ⟨rfl, _⟩
        omega
  · have hz : need = 0 := by omega
    subst hz
    simp only [if_neg hp]
    constructor
    · intro h; omega
    · split_ifs with h1 h2
      · simp
        omega
      · omega
      · simp
        omega

/-- C10 witness: a 1-placeholder selection with 5 args is not overflow,
and a 0-placeholder selection with 2 args is overflow. -/
theorem C10_overflow_only_zero_placeholders_witness :
    (1 ≤ 1 ∧ fitOf 1 5 ≠ Fit.overflow) ∧ fitOf 0 2 = Fit.overflow :=
  ⟨⟨by decide, (C10_overflow_only_zero_placeholders 1 5).1 (by decide)⟩,
   (C10_overflow_only_zero_placeholders 0 2).2.mpr ⟨rfl, by decide⟩⟩

/-- C6 counterexample: Record.timestampAsDate at FILETIME 0 yields
−11,644,473,600,000 ms (1601-01-01), not the Unix epoch. -/
theorem C6_filetime_zero_not_epoch :
    timestampAsDateMs 0 = -11644473600000 ∧ timestampAsDateMs 0 ≠ 0 := by
  constructor <;> decide

/-- C6 amended: Record.timestampAsDate converts the u64le FILETIME at
record offset 0x10 with the 11,644,473,600,000 ms epoch-difference
constant (so FILETIME 0 maps to −11,644,473,600,000 ms); the standalone
filetimeToDate utility is the function that maps 0 to the Unix epoch. -/
theorem C6_timestamp_conversion (bs : Bytes) (recordOffset : Nat) :
    recordTimestampAsDateMs bs recordOffset
        = ((u64leAt bs (recordOffset + 0x10) / 10000 : Nat) : Int) - 11644473600000
    ∧ filetimeToDateMs 0 = 0
    ∧ timestampAsDateMs 0 = -11644473600000 := by
  refine ⟨rfl, by decide, by decide⟩

/-- C7: the SystemTime decoder feeds the eight u16 fields to the
local-time Date constructor, so the decoded instant shifts with the
machine's zone offset: decoding 2024-01-15 10:30:45.123 under UTC and
under UTC+1 differ by one hour. -/
theorem C7_systemtime_depends_on_zone :
    parseSystemTime c7bytes 0 0 = .ok (1705314645123, 16)
    ∧ parseSystemTime c7bytes 3600000 0 = .ok (1705311045123, 16)
    ∧ (1705314645123 : Int) ≠ 1705311045123 := by
  refine ⟨rfl, rfl, by decide⟩

/-- C5 counterexample: a Guid substitution with declared size 20 consumes
16 bytes and leaves the cursor at 16, not at start + 20. -/
theorem C5_guid_ignores_declared_size :
    variantParse c5bytes 0 0x0f (some 20) 0
        = .ok ⟨.vGuid 0 0 0 [0, 0, 0, 0, 0, 0, 0, 0], 16, 16⟩
    ∧ (16 : Nat) ≠ 0 + 20 :=
  ⟨rfl, by decide⟩

/-- C5 amended: the declared size governs the cursor only for the
size-driven types (Null, WString, String, Binary, BXml, WStringArray and
unknown type codes), which end at start + declared; fixed-width types
consume their natural width and end at start + width regardless of the
declared size (the parser only logs a warning on the mismatch). -/
theorem C5_substitution_cursor (bs : Bytes) (tz : Int) (t sz pos : Nat) :
    (SizeDriven t → pos + sz ≤ bs.length →
        ∃ out, variantParse bs tz t (some sz) pos = .ok out
          ∧ out.consumed = sz ∧ out.pos = pos + sz)
    ∧ (∀ w, fixedWidthOf t = some w → pos + w ≤ bs.length →
        ∃ out, variantParse bs tz t (some sz) pos = .ok out
          ∧ out.consumed = w ∧ out.pos = pos + w) := by
  constructor
  · intro hsd hb
    rcases hsd with h | h | h | h | h | h | h
    · subst h
      by_cases hsz : 0 < sz
      · simp [variantParse, variantParseInner, knownVariantTypes, if_pos hsz, if_pos hb]
      · have hz : sz = 0 := by omega
        subst hz
        simp [variantParse, variantParseInner, knownVariantTypes, if_neg hsz]
    · subst h
      by_cases hsz : sz = 0
      · subst hsz
        simp [variantParse, variantParseInner, knownVariantTypes, parseWStringSub, if_pos rfl]
      · simp [variantParse, variantParseInner, knownVariantTypes, parseWStringSub, if_neg hsz,
          rbytes, if_pos hb, okBind]
    · subst h
      by_cases hsz : sz = 0
      · subst hsz
        simp [variantParse, variantParseInner, knownVariantTypes, parseStringSub, if_pos rfl]
      · simp [variantParse, variantParseInner, knownVariantTypes, parseStringSub, if_neg hsz,
          rbytes, if_pos hb, okBind]
    · subst h
      simp [variantParse, variantParseInner, knownVariantTypes, rbytes, if_pos hb, okBind]
    · subst h
      by_cases hsz : sz = 0
      · subst hsz
        simp [variantParse, variantParseInner, knownVariantTypes, parseBXmlSub, if_pos rfl]
      · simp [variantParse, variantParseInner, knownVariantTypes, parseBXmlSub, if_neg hsz,
          rbytes, if_pos hb, okBind]
    · subst h
      by_cases hsz : sz = 0
      · subst hsz
        simp [variantParse, variantParseInner, knownVariantTypes, parseWStringArraySub, if_pos rfl]
      · simp [variantParse, variantParseInner, knownVariantTypes, parseWStringArraySub, if_neg hsz,
          rbytes, if_pos hb, okBind]
    · by_cases hsz : 0 < sz
      · simp only [variantParse, variantParseInner, variantParseUnknown, if_neg h,
          if_pos hsz, rbytes, if_pos hb, okBind, pureOk]
        exact ⟨_, rfl, rfl, rfl⟩
      · have hz : sz = 0 := by omega
        subst hz
        simp only [variantParse, variantParseInner, variantParseUnknown, if_neg h,
          if_neg hsz, pureOk]
        exact ⟨_, rfl, rfl, rfl⟩
  · intro w hw hb
    unfold fixedWidthOf at hw
    split_ifs at hw with hA hB hC hD hE
    all_goals (injection hw with hw; subst hw)
    · rcases hA with h | h | h <;> subst h <;>
        simp [variantParse, variantParseInner, knownVariantTypes, ru8, if_pos hb, okBind]
    · rcases hB with h | h <;> subst h <;>
        simp [variantParse, variantParseInner, knownVariantTypes, ru16le, if_pos hb, okBind]
    · rcases hC with h | h | h | h | h <;> subst h <;>
        simp [variantParse, variantParseInner, knownVariantTypes, ru32le, if_pos hb, okBind]
    · rcases hD with h | h | h | h | h <;> subst h <;>
        simp [variantParse, variantParseInner, knownVariantTypes, parseFileTime, ru64le,
          if_pos hb, okBind]
    · have q1 : pos + 4 ≤ bs.length := by omega
      have q2 : pos + 4 + 2 ≤ bs.length := by omega
      have q3 : pos + 4 + 2 + 2 ≤ bs.length := by omega
      have q4 : pos + 4 + 2 + 2 + 8 ≤ bs.length := by omega
      have s1 : pos + 2 ≤ bs.length := by omega
      have s2 : pos + 2 + 2 ≤ bs.length := by omega
      have s3 : pos + 2 + 2 + 2 ≤ bs.length := by omega
      have s4 : pos + 2 + 2 + 2 + 2 ≤ bs.length := by omega
      have s5 : pos + 2 + 2 + 2 + 2 + 2 ≤ bs.length := by omega
      have s6 : pos + 2 + 2 + 2 + 2 + 2 + 2 ≤ bs.length := by omega
      have s7 : pos + 2 + 2 + 2 + 2 + 2 + 2 + 2 ≤ bs.length := by omega
      have s8 : pos + 2 + 2 + 2 + 2 + 2 + 2 + 2 + 2 ≤ bs.length := by omega
      rcases hE with h | h <;> subst h
      · simp [variantParse, variantParseInner, knownVariantTypes, parseGuid, ru32le, ru16le, rbytes,
          if_pos q1, if_pos q2, if_pos q3, if_pos q4, okBind]
      · simp [variantParse, variantParseInner, knownVariantTypes, parseSystemTime, ru16le,
          if_pos s1, if_pos s2, if_pos s3, if_pos s4, if_pos s5, if_pos s6,
          if_pos s7, if_pos s8, okBind]

/-- C5 witness: a WString substitution of declared size 4 lands at 0 + 4;
a Guid substitution (natural width 16) lands at 0 + 16. -/
theorem C5_substitution_cursor_witness :
    (SizeDriven 0x01 ∧ (0 : Nat) + 4 ≤ (List.replicate 8 0 : Bytes).length ∧
      ∃ out, variantParse (List.replicate 8 0) 0 0x01 (some 4) 0 = .ok out
        ∧ out.consumed = 4 ∧ out.pos = 0 + 4)
    ∧ (fixedWidthOf 0x0f = some 16 ∧ (0 : Nat) + 16 ≤ (List.replicate 24 0 : Bytes).length ∧
      ∃ out, variantParse (List.replicate 24 0) 0 0x0f (some 20) 0 = .ok out
        ∧ out.consumed = 16 ∧ out.pos = 0 + 16) :=
  ⟨⟨by decide, by decide,
    (C5_substitution_cursor (List.replicate 8 0) 0 0x01 4 0).1 (by decide) (by decide)⟩,
   ⟨by decide, by decide,
    (C5_substitution_cursor (List.replicate 24 0) 0 0x0f 20 0).2 16 (by decide) (by decide)⟩⟩

/-- C4 counterexample: ChunkHeader.getTemplate on a cache miss parses the
template with the shared reader, moving it from position 7 to position 24
(the end of a zero-data-length template header at offset 0). -/
theorem C4_getTemplate_moves_shared_reader :
    (chunkGetTemplate c4bytes 0 0 64 ⟨[], [], 7⟩ 0).1.mainPos = 24
    ∧ (24 : Nat) ≠ 7 :=
  ⟨by decide, by decide⟩

/-- C4 amended: addString and addTemplate parse through cloned readers and
leave the shared reader position unchanged; getTemplate preserves it only
on a cache hit (on a miss it parses with the shared reader and moves it). -/
theorem C4_lookup_cursor (bs : Bytes) (chunkOfs : Nat) (tz : Int) (fuel : Nat)
    (st : ChunkState) (offset : Nat) :
    (chunkAddString bs chunkOfs st offset).1.mainPos = st.mainPos
    ∧ (chunkAddTemplate bs chunkOfs tz fuel st offset).1.mainPos = st.mainPos
    ∧ (∀ dl, st.templates.lookup offset = some dl →
        (chunkGetTemplate bs chunkOfs tz fuel st offset).1.mainPos = st.mainPos) := by
  refine ⟨?_, ?_, ?_⟩
  · unfold chunkAddString
    cases nameStringParse bs chunkOfs offset <;> rfl
  · unfold chunkAddTemplate
    cases hl : st.templates.lookup offset
    · cases templateNodeParse bs chunkOfs tz fuel offset <;> simp [hl]
    · simp [hl]
  · intro dl hdl
    unfold chunkGetTemplate
    simp [hdl]

/-- C4 witness: with the shared reader at 7, addString and addTemplate
leave it at 7, and a cache-hit getTemplate leaves it at 7. -/
theorem C4_lookup_cursor_witness :
    (chunkAddString c4bytes 0 ⟨[], [], 7⟩ 0).1.mainPos = 7
    ∧ (chunkAddTemplate c4bytes 0 0 64 ⟨[], [], 7⟩ 0).1.mainPos = 7
    ∧ (chunkGetTemplate c4bytes 0 0 64 ⟨[], [(0, 5)], 7⟩ 0).1.mainPos = 7 :=
  ⟨(C4_lookup_cursor c4bytes 0 0 64 ⟨[], [], 7⟩ 0).1,
   (C4_lookup_cursor c4bytes 0 0 64 ⟨[], [], 7⟩ 0).2.1,
   (C4_lookup_cursor c4bytes 0 0 64 ⟨[], [(0, 5)], 7⟩ 0).2.2 5 (by decide)⟩

/-- C2: for an OpenStartElement token, the node's declared length is the
tag header length — 11 bytes, plus 4 when flag 0x04 is set, plus the
inline name length 10 + 2·(name code units) when string_offset points past
the node's chunk-relative offset — not the element extent, and the content
walk starts at node_start + tag_length and is bounded by exactly `size`
more bytes. -/
theorem C2_ose_declared_is_tag_length (bs : Bytes) (chunkOfs : Nat) (tz : Int)
    (fuel pos : Nat) (embedded : Bool) (hdr : OseHdr)
    (htok : u8At bs pos % 16 = 0x01) (hpos : pos + 1 ≤ bs.length)
    (hh : oseHeader bs chunkOfs pos = .ok hdr)
    (hseek : pos + hdr.tagLength ≤ bs.length) :
    nodeStep bs chunkOfs tz (fuel + 1) embedded pos =
      .ok (⟨u8At bs pos, .openStartElement, hdr.tagLength⟩,
           oseStructure bs chunkOfs tz fuel (pos + hdr.tagLength + hdr.size)
             (pos + hdr.tagLength))
    ∧ hdr.tagLength = 11 + (if (u8At bs pos / 16) &&& 4 ≠ 0 then 4 else 0)
        + (if ((u32leAt bs (pos + 7) : Int) > (pos : Int) - (chunkOfs : Int))
           then 10 + 2 * u16leAt bs (chunkOfs + u32leAt bs (pos + 7) + 6) else 0)
    ∧ hdr.size = u32leAt bs (pos + 3)
    ∧ hdr.stringOffset = u32leAt bs (pos + 7) := by
  constructor
  · simp only [nodeStep, ru8, if_pos hpos, okBind, htok, hh, if_pos hseek, pureOk]
  · unfold oseHeader at hh
    by_cases c1 : pos + 1 + 2 ≤ bs.length
    · simp only [ru16le, if_pos c1, okBind,
        show pos + 1 + 2 = pos + 3 from by omega] at hh
      by_cases c2 : pos + 3 + 4 ≤ bs.length
      · simp only [ru32le, if_pos c2, okBind,
          show pos + 3 + 4 = pos + 7 from by omega] at hh
        by_cases c3 : pos + 7 + 4 ≤ bs.length
        · simp only [if_pos c3, okBind] at hh
          by_cases hinl :
              ((u32leAt bs (pos + 7) : Int) > (pos : Int) - (chunkOfs : Int))
          · rw [if_pos hinl] at hh
            cases hns : nameStringParse bs chunkOfs (u32leAt bs (pos + 7)) with
            | error e =>
                rw [hns] at hh
                simp at hh
            | ok ns =>
                rw [hns] at hh
                simp only [okBind, pureOk] at hh
                have hlen : ns.len
                    = 10 + 2 * u16leAt bs (chunkOfs + u32leAt bs (pos + 7) + 6) := by
                  unfold nameStringParse at hns
                  by_cases d0 : chunkOfs + u32leAt bs (pos + 7) ≤ bs.length
                  · rw [if_pos d0] at hns
                    by_cases d1 : chunkOfs + u32leAt bs (pos + 7) + 4 ≤ bs.length
                    · simp only [ru32le, if_pos d1, okBind] at hns
                      by_cases d2 : chunkOfs + u32leAt bs (pos + 7) + 4 + 2 ≤ bs.length
                      · simp only [ru16le, if_pos d2, okBind,
                          show chunkOfs + u32leAt bs (pos + 7) + 4 + 2
                              = chunkOfs + u32leAt bs (pos + 7) + 6 from by omega] at hns
                        by_cases d3 : chunkOfs + u32leAt bs (pos + 7) + 6 + 2 ≤ bs.length
                        · simp only [ru16le, if_pos d3, okBind] at hns
                          by_cases d4 : chunkOfs + u32leAt bs (pos + 7) + 6 + 2
                              + 2 * u16leAt bs (chunkOfs + u32leAt bs (pos + 7) + 6)
                              ≤ bs.length
                          · simp only [rbytes, if_pos d4, okBind, pureOk,
                              Except.ok.injEq] at hns
                            subst hns
                            show 8 + 2 * _ + 2 = 10 + 2 * _
                            omega
                          · simp [rbytes, d4] at hns
                        · simp [ru16le, d3] at hns
                      · simp [ru16le, d2] at hns
                    · simp [ru32le, d1] at hns
                  · rw [if_neg d0] at hns
                    simp at hns
                rw [Except.ok.injEq] at hh
                subst hh
                refine ⟨?_, rfl, rfl⟩
                show 11 + (if (u8At bs pos / 16) &&& 4 ≠ 0 then 4 else 0) + ns.len = _
                rw [hlen, if_pos hinl]
          · rw [if_neg hinl] at hh
            simp only [pureOk, Except.ok.injEq] at hh
            subst hh
            refine ⟨?_, rfl, rfl⟩
            simp [if_neg hinl]
        · simp [c3] at hh
      · simp [ru32le, c2] at hh
    · simp [ru16le, c1] at hh

/-- C2 witness: the element at offset 0 of `c2bytes` has an inline
one-code-unit name, tag length 11 + 0 + 12 = 23, declared size 2. -/
theorem C2_ose_declared_is_tag_length_witness :
    u8At c2bytes 0 % 16 = 0x01 ∧ (0 : Nat) + 1 ≤ c2bytes.length
    ∧ oseHeader c2bytes 0 0 = .ok ⟨1, 0, 2, 12, 23, 11⟩
    ∧ (0 : Nat) + 23 ≤ c2bytes.length
    ∧ (⟨1, 0, 2, 12, 23, 11⟩ : OseHdr).tagLength
        = 11 + (if (u8At c2bytes 0 / 16) &&& 4 ≠ 0 then 4 else 0)
          + (if ((u32leAt c2bytes (0 + 7) : Int) > (0 : Int) - (0 : Int))
             then 10 + 2 * u16leAt c2bytes (0 + u32leAt c2bytes (0 + 7) + 6) else 0) :=
  ⟨by decide, by decide, rfl, by decide,
   (C2_ose_declared_is_tag_length c2bytes 0 0 32 0 false ⟨1, 0, 2, 12, 23, 11⟩
      (by decide) (by decide) rfl (by decide)).2.1⟩

/-- Helper: the accumulated `_parsedBxmlChildrenLength` of Phase 1 equals
the sum of the declared lengths of the parsed children. -/
theorem rootPhase1_len_eq_sum (bs : Bytes) (chunkOfs : Nat) (tz : Int) :
    ∀ fuel endPos pos,
      (rootPhase1 bs chunkOfs tz fuel endPos pos).2.1
        = ((rootPhase1 bs chunkOfs tz fuel endPos pos).1.map PNode.len).sum := by
  intro fuel
  induction fuel with
  | zero => intro endPos pos; simp [rootPhase1]
  | succ fuel ih =>
      intro endPos pos
      unfold rootPhase1
      by_cases h1 : pos < endPos
      · by_cases h2 : pos < bs.length
        · by_cases h3 : u8At bs pos = 0
          · simp [h1, h2, h3]
          · cases hstep : nodeStep bs chunkOfs tz fuel false pos with
            | error e => simp [h1, h2, h3, hstep]
            | ok np =>
                obtain ⟨node, p'⟩ := np
                simp [h1, h2, h3, hstep, ih]
        · simp [h1, h2]
      · simp [h1]

/-- C1 counterexample: on `c1bytes` the Phase 2 count bytes are
00 00 01 00; the parser uses the big-endian value 256 rather than the
little-endian u32, which is 65536. -/
theorem C1_count_prefers_big_endian :
    (recordRootParse c1bytes 0 0 64 0).phase2 = .ok c1p2
    ∧ c1p2.read.map Phase2Read.countUsed = some 256
    ∧ u32leAt c1bytes 27 = 65536
    ∧ (256 : Nat) ≠ 65536 :=
  ⟨rfl, rfl, by decide, by decide⟩

/-- C1 amended: Phase 2 seeks to record_data_start + (sum of the
children's declared lengths) − 1; the count used is the big-endian u32
there when it lies strictly between 0 and 1024 and the little-endian u32
otherwise; when the chosen count is in range, count declarations of the
form (size u16, type u8, reserved u8) are read, followed by the values. -/
theorem C1_substitution_header (bs : Bytes) (chunkOfs : Nat) (tz : Int)
    (fuel recordOffset : Nat) :
    ∀ p2, (recordRootParse bs chunkOfs tz fuel recordOffset).phase2 = .ok p2 →
      p2.sought = recordOffset + 0x18
          + (((recordRootParse bs chunkOfs tz fuel recordOffset).children.map PNode.len).sum) - 1
      ∧ ∀ rd, p2.read = some rd →
          rd.countLE = u32leAt bs p2.sought
          ∧ rd.countBE = u32beAt bs p2.sought
          ∧ rd.countUsed
              = (if 0 < rd.countBE ∧ rd.countBE < 1024 then rd.countBE else rd.countLE)
          ∧ ((0 < rd.countUsed ∧ rd.countUsed < 1024) →
               rd.decls = (subDeclLoop bs rd.countUsed (p2.sought + 4)).1
               ∧ ∃ pEnd, subValueLoop bs tz rd.decls
                    ((subDeclLoop bs rd.countUsed (p2.sought + 4)).2) = .ok (rd.values, pEnd))
          ∧ (¬(0 < rd.countUsed ∧ rd.countUsed < 1024) →
               rd.decls = [] ∧ rd.values = []) := by
  intro p2 hp2
  have hsum := rootPhase1_len_eq_sum bs chunkOfs tz fuel
    (recordOffset + 0x18 + (u32leAt bs (recordOffset + 4) - 0x18)) (recordOffset + 0x18)
  simp only [recordRootParse] at hp2 ⊢
  rw [hsum] at hp2
  unfold rootPhase2 at hp2
  set len := ((rootPhase1 bs chunkOfs tz fuel
      (recordOffset + 0x18 + (u32leAt bs (recordOffset + 4) - 0x18))
      (recordOffset + 0x18)).1.map PNode.len).sum with hlen
  by_cases c0 : recordOffset + 0x18 + len - 1 ≤ bs.length
  · rw [if_pos c0] at hp2
    by_cases c1 : recordOffset + 0x18 + len - 1 + 4 ≤ bs.length
    · rw [if_pos c1] at hp2
      by_cases c2 : 0 < (if 0 < u32beAt bs (recordOffset + 0x18 + len - 1)
            ∧ u32beAt bs (recordOffset + 0x18 + len - 1) < 1024
          then u32beAt bs (recordOffset + 0x18 + len - 1)
          else u32leAt bs (recordOffset + 0x18 + len - 1))
          ∧ (if 0 < u32beAt bs (recordOffset + 0x18 + len - 1)
            ∧ u32beAt bs (recordOffset + 0x18 + len - 1) < 1024
          then u32beAt bs (recordOffset + 0x18 + len - 1)
          else u32leAt bs (recordOffset + 0x18 + len - 1)) < 1024
      · simp only [if_pos c2] at hp2
        cases hv : subValueLoop bs tz
            (subDeclLoop bs
              (if 0 < u32beAt bs (recordOffset + 0x18 + len - 1)
                  ∧ u32beAt bs (recordOffset + 0x18 + len - 1) < 1024
                then u32beAt bs (recordOffset + 0x18 + len - 1)
                else u32leAt bs (recordOffset + 0x18 + len - 1))
              (recordOffset + 0x18 + len - 1 + 4)).1
            (subDeclLoop bs
              (if 0 < u32beAt bs (recordOffset + 0x18 + len - 1)
                  ∧ u32beAt bs (recordOffset + 0x18 + len - 1) < 1024
                then u32beAt bs (recordOffset + 0x18 + len - 1)
                else u32leAt bs (recordOffset + 0x18 + len - 1))
              (recordOffset + 0x18 + len - 1 + 4)).2 with
        | error e =>
            rw [hv] at hp2
            simp at hp2
        | ok vp =>
            obtain ⟨vs, pEnd⟩ := vp
            rw [hv] at hp2
            rw [Except.ok.injEq] at hp2
            subst hp2
            refine ⟨rfl, ?_⟩
            rintro rd rfl'
            injection rfl' with hrd
            subst hrd
            refine ⟨rfl, rfl, rfl, ?_, ?_⟩
            · intro _
              exact ⟨rfl, pEnd, hv⟩
            · intro hc
              exact absurd c2 hc
      · rw [if_neg c2] at hp2
        rw [Except.ok.injEq] at hp2
        subst hp2
        refine ⟨rfl, ?_⟩
        rintro rd rfl'
        injection rfl' with hrd
        subst hrd
        refine ⟨rfl, rfl, rfl, ?_, ?_⟩
        · intro hc
          exact absurd hc c2
        · intro _
          exact ⟨rfl, rfl⟩
    · rw [if_neg c1] at hp2
      rw [Except.ok.injEq] at hp2
      subst hp2
      refine ⟨rfl, ?_⟩
      rintro rd hrd
      simp at hrd
  · rw [if_neg c0] at hp2
    simp at hp2

/-- C1 witness: on `c1bytes` the sought offset is the children's declared
sum minus one past the record data start. -/
theorem C1_substitution_header_witness :
    (recordRootParse c1bytes 0 0 64 0).phase2 = .ok c1p2
    ∧ c1p2.sought
        = 0 + 0x18 + (((recordRootParse c1bytes 0 0 64 0).children.map PNode.len).sum) - 1 :=
  ⟨rfl, ((C1_substitution_header c1bytes 0 0 64 0) c1p2 rfl).1⟩

/-- Helper: the embedded loop's accumulated declared length is the sum of
the declared lengths of the non-EndOfStream nodes, and a TemplateInstance
node can only be the last node parsed. -/
theorem embedLoop_spec (bs : Bytes) (chunkOfs : Nat) (tz : Int) :
    ∀ fuel limit pos,
      (embedLoop bs chunkOfs tz fuel limit pos).2
        = (((embedLoop bs chunkOfs tz fuel limit pos).1.filter
            (fun n => n.kind ≠ NodeKind.endOfStream)).map PNode.len).sum
      ∧ ∀ n ∈ (embedLoop bs chunkOfs tz fuel limit pos).1.dropLast,
          n.kind ≠ NodeKind.templateInstance := by
  intro fuel
  induction fuel with
  | zero => intro limit pos; simp [embedLoop]
  | succ fuel ih =>
      intro limit pos
      unfold embedLoop
      by_cases h1 : pos < limit
      · cases hstep : nodeStep bs chunkOfs tz fuel true pos with
        | error e => simp [h1, hstep]
        | ok np =>
            obtain ⟨node, p'⟩ := np
            by_cases hti : node.kind = NodeKind.templateInstance
            · simp [h1, hstep, hti]
            · by_cases heos : node.kind = NodeKind.endOfStream
              · simp [h1, hstep, hti, heos]
              · by_cases hprog : p' ≤ pos
                · simp [h1, hstep, hti, heos, hprog]
                · obtain ⟨ihsum, ihti⟩ := ih limit p'
                  simp only [if_pos h1, hstep, if_neg hti, if_neg heos, if_pos heos,
                    if_neg hprog]
                  constructor
                  · simp [List.filter_cons, heos, ihsum]
                  · intro n hn
                    cases hrest : (embedLoop bs chunkOfs tz fuel limit p').1 with
                    | nil =>
                        rw [hrest] at hn
                        simp at hn
                    | cons m ms =>
                        rw [hrest] at hn
                        rw [List.dropLast_cons₂, List.mem_cons] at hn
                        rcases hn with rfl | hn
                        · exact hti
                        · rw [hrest] at ihti
                          exact ihti n hn
      · simp [h1]

/-- C3: in the embedded BXML parse, a TemplateInstance is always the last
token parsed (no further tokens are consumed after it), and the
substitution header is read at base_offset + (sum of the declared lengths
of the parsed children except EndOfStream), with no −1 correction. -/
theorem C3_embedded_stop_and_header (bs : Bytes) (chunkOfs : Nat) (tz : Int)
    (fuel baseOffset length : Nat) :
    (parseEmbeddedAtOffset bs chunkOfs tz fuel baseOffset length).countPos
      = baseOffset
        + ((((parseEmbeddedAtOffset bs chunkOfs tz fuel baseOffset length).nodes.filter
            (fun n => n.kind ≠ NodeKind.endOfStream)).map PNode.len).sum)
    ∧ ∀ n ∈ (parseEmbeddedAtOffset bs chunkOfs tz fuel baseOffset length).nodes.dropLast,
        n.kind ≠ NodeKind.templateInstance := by
  obtain ⟨hsum, hti⟩ := embedLoop_spec bs chunkOfs tz fuel (baseOffset + length + 64) baseOffset
  constructor
  · simp only [parseEmbeddedAtOffset]
    rw [hsum]
  · intro n hn
    exact hti n hn

/-- C3 witness: on `c3bytes` the parsed nodes are a StartOfStream then a
TemplateInstance; the count position is the declared sum past the base. -/
theorem C3_embedded_stop_and_header_witness :
    (parseEmbeddedAtOffset c3bytes 0 0 64 0 12).countPos
      = 0 + ((((parseEmbeddedAtOffset c3bytes 0 0 64 0 12).nodes.filter
          (fun n => n.kind ≠ NodeKind.endOfStream)).map PNode.len).sum)
    ∧ (⟨15, .startOfStream, 4⟩ : PNode)
        ∈ (parseEmbeddedAtOffset c3bytes 0 0 64 0 12).nodes.dropLast
    ∧ (⟨15, .startOfStream, 4⟩ : PNode).kind ≠ NodeKind.templateInstance :=
  ⟨(C3_embedded_stop_and_header c3bytes 0 0 64 0 12).1,
   by decide,
   (C3_embedded_stop_and_header c3bytes 0 0 64 0 12).2 ⟨15, .startOfStream, 4⟩ (by decide)⟩

/-! ## C8 — buildArgsFromLayout -/

theorem partsSpec_cons_sub (subs : List JsVal) (i : Nat) (rest : List LPart) :
    partsSpec subs (.sub i :: rest)
      = formatForMessage (subValueAt subs i) :: partsSpec subs rest := rfl

theorem partsSpec_cons_lit (subs : List JsVal) (t : String) (rest : List LPart) :
    partsSpec subs (.lit t :: rest) = partsSpec subs rest := rfl

theorem buildArgsParts_zero (subs : List JsVal) :
    ∀ parts out, buildArgsParts subs 0 parts out = (out ++ partsSpec subs parts, false) := by
  intro parts
  induction parts with
  | nil => intro out; simp [buildArgsParts, partsSpec]
  | cons p rest ih =>
      intro out
      cases p with
      | lit t => simp [buildArgsParts, partsSpec, ih]
      | sub i => simp [buildArgsParts, pushArg, partsSpec, ih]

theorem buildArgsEntries_zero (subs : List JsVal) :
    ∀ entries out, buildArgsEntries subs 0 entries out = out ++ buildArgsSpec subs entries := by
  intro entries
  induction entries with
  | nil => intro out; simp [buildArgsEntries, buildArgsSpec]
  | cons e rest ih =>
      intro out
      by_cases h : e.parts.any isSubPart = true
      · simp [buildArgsEntries, buildArgsSpec, entrySpec, h, buildArgsParts_zero, ih]
      · simp [buildArgsEntries, buildArgsSpec, entrySpec, h, pushArg, ih]

theorem buildArgsParts_pos (subs : List JsVal) (mx : Nat) (hmx : mx ≠ 0) :
    ∀ parts out, out.length < mx →
      (buildArgsParts subs mx parts out).1 = (out ++ partsSpec subs parts).take mx
      ∧ ((buildArgsParts subs mx parts out).2 = true
          ↔ mx ≤ out.length + (partsSpec subs parts).length) := by
  intro parts
  induction parts with
  | nil =>
      intro out hout
      constructor
      · simp [buildArgsParts, partsSpec, List.take_of_length_le (Nat.le_of_lt hout)]
      · simp [buildArgsParts, partsSpec]; omega
  | cons p rest ih =>
      intro out hout
      cases p with
      | lit t =>
          have h := ih out hout
          simp only [buildArgsParts, partsSpec, List.filterMap_cons] at h ⊢
          exact h
      | sub i =>
          by_cases hstop : mx ≤ out.length + 1
          · have hc : mx ≠ 0 ∧ mx ≤ (out ++ [formatForMessage (subValueAt subs i)]).length :=
              ⟨hmx, by simp; omega⟩
            have hr : pushArg mx out (formatForMessage (subValueAt subs i))
                = ((out ++ [formatForMessage (subValueAt subs i)]).take mx, true) := by
              simp only [pushArg]
              rw [if_pos hc]
            constructor
            · simp only [buildArgsParts, hr]
              simp
              rw [partsSpec_cons_sub]
              rw [show out ++ formatForMessage (subValueAt subs i) :: partsSpec subs rest
                    = (out ++ [formatForMessage (subValueAt subs i)]) ++ partsSpec subs rest from by
                  simp]
              exact (List.take_append_of_le_length (by simp; omega)).symm
            · simp only [buildArgsParts, hr]
              simp
              rw [partsSpec_cons_sub]
              simp only [List.length_cons]
              omega
          · have hc : ¬(mx ≠ 0 ∧ mx ≤ (out ++ [formatForMessage (subValueAt subs i)]).length) := by
              simp; omega
            have hr : pushArg mx out (formatForMessage (subValueAt subs i))
                = (out ++ [formatForMessage (subValueAt subs i)], false) := by
              simp only [pushArg]
              rw [if_neg hc]
            have hlen : (out ++ [formatForMessage (subValueAt subs i)]).length < mx := by
              simp; omega
            obtain ⟨ih1, ih2⟩ := ih (out ++ [formatForMessage (subValueAt subs i)]) hlen
            constructor
            · simp only [buildArgsParts, hr]
              simp
              rw [ih1, partsSpec_cons_sub]
              congr 1
              simp [List.append_assoc]
            · simp only [buildArgsParts, hr]
              simp
              rw [ih2, partsSpec_cons_sub]
              simp only [List.length_append, List.length_cons, List.length_nil]
              omega

theorem buildArgsEntries_pos (subs : List JsVal) (mx : Nat) (hmx : mx ≠ 0) :
    ∀ entries out, out.length < mx →
      buildArgsEntries subs mx entries out = (out ++ buildArgsSpec subs entries).take mx := by
  intro entries
  induction entries with
  | nil =>
      intro out hout
      have hno : ¬(mx ≠ 0 ∧ mx < out.length) := by omega
      simp [buildArgsEntries, buildArgsSpec, hno,
        List.take_of_length_le (Nat.le_of_lt hout)]
  | cons e rest ih =>
      intro out hout
      by_cases h : e.parts.any isSubPart = true
      · obtain ⟨h1, h2⟩ := buildArgsParts_pos subs mx hmx e.parts out hout
        by_cases hs : (buildArgsParts subs mx e.parts out).2 = true
        · have hle : mx ≤ out.length + (partsSpec subs e.parts).length := h2.mp hs
          simp only [buildArgsEntries]
          rw [if_pos h, if_pos hs, h1]
          rw [show out ++ buildArgsSpec subs (e :: rest)
                = (out ++ partsSpec subs e.parts) ++ buildArgsSpec subs rest from by
              simp [buildArgsSpec, entrySpec, h, List.append_assoc]]
          exact (List.take_append_of_le_length (by simp; omega)).symm
        · have hlt : ¬ mx ≤ out.length + (partsSpec subs e.parts).length := fun hcc => hs (h2.mpr hcc)
          have h1e : (buildArgsParts subs mx e.parts out).1 = out ++ partsSpec subs e.parts := by
            rw [h1]
            exact List.take_of_length_le (by simp; omega)
          simp only [buildArgsEntries]
          rw [if_pos h, if_neg hs]
          rw [ih _ (by rw [h1e]; simp; omega), h1e]
          congr 1
          simp [buildArgsSpec, entrySpec, h, List.append_assoc]
      · by_cases hstop : mx ≤ out.length + 1
        · have hc : mx ≠ 0 ∧ mx ≤ (out ++ [entryLitText e.parts]).length := ⟨hmx, by simp; omega⟩
          have hr : pushArg mx out (entryLitText e.parts)
              = ((out ++ [entryLitText e.parts]).take mx, true) := by
            simp only [pushArg]
            rw [if_pos hc]
          simp only [buildArgsEntries]
          rw [if_neg h, hr]
          simp
          rw [show out ++ buildArgsSpec subs (e :: rest)
                = (out ++ [entryLitText e.parts]) ++ buildArgsSpec subs rest from by
              simp [buildArgsSpec, entrySpec, h, List.append_assoc]]
          exact (List.take_append_of_le_length (by simp; omega)).symm
        · have hc : ¬(mx ≠ 0 ∧ mx ≤ (out ++ [entryLitText e.parts]).length) := by simp; omega
          have hr : pushArg mx out (entryLitText e.parts)
              = (out ++ [entryLitText e.parts], false) := by
            simp only [pushArg]
            rw [if_neg hc]
          simp only [buildArgsEntries]
          rw [if_neg h, hr]
          simp
          rw [ih _ (by simp; omega)]
          congr 1
          simp [buildArgsSpec, entrySpec, h, List.append_assoc]

/-- C8 counterexample: a layout entry referencing an array-valued
substitution emits ONE argument, the elements joined with a comma and a
space, not one argument per element. -/
theorem C8_array_joined_not_expanded :
    buildArgsFromLayout [⟨none, [.sub 0]⟩] [.jArr [.jStr "a", .jStr "b"]] 0 = ["a, b"]
    ∧ (["a, b"] : List String) ≠ ["a", "b"] := by
  constructor
  · rfl
  · decide

/-- C8 (amended): buildArgsFromLayout emits, per entry in layout order, the
formatted value of every substitution reference (an array value formatted
as a single joined string) when the entry has any reference, else the
entry's joined literal text; a truthy max truncates the whole result to
its first max elements. -/
theorem C8_layout_args (layout : List LEntry) (subs : List JsVal) (mx : Nat) :
    buildArgsFromLayout layout subs 0 = buildArgsSpec subs layout
    ∧ (mx ≠ 0 → buildArgsFromLayout layout subs mx = (buildArgsSpec subs layout).take mx) := by
  constructor
  · simpa [buildArgsFromLayout] using buildArgsEntries_zero subs layout []
  · intro hmx
    simpa [buildArgsFromLayout] using
      buildArgsEntries_pos subs mx hmx layout [] (by simp; omega)

/-- C8 witness: a two-entry layout with a mixed entry and a literal-only
entry, evaluated without a max and with max 2. -/
theorem C8_layout_args_witness :
    buildArgsFromLayout
        [⟨none, [.lit "x", .sub 0, .sub 1]⟩, ⟨none, [.lit "y"]⟩] [.jStr "A", .jNum 3] 0
      = buildArgsSpec [.jStr "A", .jNum 3]
          [⟨none, [.lit "x", .sub 0, .sub 1]⟩, ⟨none, [.lit "y"]⟩]
    ∧ ((2 : Nat) ≠ 0
        ∧ buildArgsFromLayout
            [⟨none, [.lit "x", .sub 0, .sub 1]⟩, ⟨none, [.lit "y"]⟩] [.jStr "A", .jNum 3] 2
          = (buildArgsSpec [.jStr "A", .jNum 3]
              [⟨none, [.lit "x", .sub 0, .sub 1]⟩, ⟨none, [.lit "y"]⟩]).take 2) :=
  ⟨(C8_layout_args [⟨none, [.lit "x", .sub 0, .sub 1]⟩, ⟨none, [.lit "y"]⟩]
      [.jStr "A", .jNum 3] 2).1,
   by decide,
   (C8_layout_args [⟨none, [.lit "x", .sub 0, .sub 1]⟩, ⟨none, [.lit "y"]⟩]
      [.jStr "A", .jNum 3] 2).2 (by decide)⟩

/-! ## C9 — applyMessageTemplate residual placeholders -/

theorem pctOk_tail (c : Char) (s : List Char) (h : pctOk (c :: s) = true) : pctOk s = true := by
  simp only [pctOk, Bool.and_eq_true] at h
  exact h.2

theorem pctOk_drop : ∀ (s : List Char) (n : Nat), pctOk s = true → pctOk (List.drop n s) = true := by
  intro s
  induction s with
  | nil => intro n h; simpa using h
  | cons c rest ih =>
      intro n h
      cases n with
      | zero => simpa using h
      | succ m =>
          simp only [List.drop_succ_cons]
          exact ih m (pctOk_tail c rest h)

theorem argAt1_not_mem (args : List (List Char)) (x : Char) (h : ∀ a ∈ args, x ∉ a) (n : Nat) :
    x ∉ argAt1 args n := by
  unfold argAt1
  split
  · exact h _ (args.get_mem _ _)
  · simp

theorem argAt0_not_mem (args : List (List Char)) (x : Char) (h : ∀ a ∈ args, x ∉ a) (n : Nat) :
    x ∉ argAt0 args n := by
  unfold argAt0
  split
  · exact h _ (args.get_mem _ _)
  · simp

theorem pass1Go_id (args : List (List Char)) :
    ∀ fuel s, bangChar ∉ s → pass1Go args fuel s = s := by
  intro fuel
  induction fuel with
  | zero => intro s h; rfl
  | succ n ih =>
      intro s h
      cases s with
      | nil => rfl
      | cons c rest =>
          have hb : bangChar ∉ rest := fun hx => h (List.mem_cons_of_mem _ hx)
          by_cases hp : c = pctChar
          · subst hp
            simp only [pass1Go]
            rw [if_pos trivial]
            by_cases hds : (rest.takeWhile isDig).isEmpty = true
            · rw [if_pos hds, ih rest hb]
            · rw [if_neg hds]
              split
              · next c2 hr2 =>
                  have hc2m : c2 ∈ rest :=
                    List.drop_subset _ _ (List.mem_of_mem_head? hr2)
                  have hc2 : ¬ c2 = bangChar := fun he => hb (he ▸ hc2m)
                  rw [if_neg hc2, ih rest hb]
              · next hr2 => rw [ih rest hb]
          · simp only [pass1Go]
            rw [if_neg hp, ih rest hb]

theorem pass2Go_preserves (args : List (List Char)) (x : Char)
    (hargs : ∀ a ∈ args, x ∉ a) :
    ∀ fuel s, x ∉ s → x ∉ pass2Go args fuel s := by
  intro fuel
  induction fuel with
  | zero => intro s h; exact h
  | succ n ih =>
      intro s h
      cases s with
      | nil => simp [pass2Go]
      | cons c rest =>
          have hc : ¬ x = c := fun he => h (he ▸ List.mem_cons_self _ _)
          have hrest : x ∉ rest := fun hx => h (List.mem_cons_of_mem _ hx)
          by_cases hp : c = pctChar
          · subst hp
            simp only [pass2Go]
            rw [if_pos trivial]
            by_cases hds : (rest.takeWhile isDig).isEmpty = true
            · rw [if_pos hds]
              intro hx
              rcases List.mem_cons.mp hx with h1 | h1
              · exact hc h1
              · exact ih rest hrest h1
            · rw [if_neg hds]
              intro hx
              rcases List.mem_append.mp hx with h1 | h1
              · exact argAt1_not_mem args x hargs _ h1
              · exact ih _ (fun hz => hrest (List.drop_subset _ _ hz)) h1
          · simp only [pass2Go]
            rw [if_neg hp]
            intro hx
            rcases List.mem_cons.mp hx with h1 | h1
            · exact hc h1
            · exact ih rest hrest h1

theorem pass2Go_no_pct (args : List (List Char))
    (hargs : ∀ a ∈ args, pctChar ∉ a) :
    ∀ fuel s, pctOk s = true → s.length ≤ fuel → pctChar ∉ pass2Go args fuel s := by
  intro fuel
  induction fuel with
  | zero =>
      intro s hok hlen
      have hs : s = [] := List.length_eq_zero.mp (Nat.le_zero.mp hlen)
      subst hs
      simp [pass2Go]
  | succ n ih =>
      intro s hok hlen
      cases s with
      | nil => simp [pass2Go]
      | cons c rest =>
          have hokr : pctOk rest = true := pctOk_tail c rest hok
          have hlenr : rest.length ≤ n := by
            simp only [List.length_cons] at hlen
            omega
          by_cases hp : c = pctChar
          · subst hp
            have hd : ∃ d rest2, rest = d :: rest2 ∧ isDig d = true := by
              simp only [pctOk, Bool.and_eq_true] at hok
              obtain ⟨h1, _⟩ := hok
              cases hr : rest with
              | nil => rw [hr] at h1; simp at h1
              | cons d r2 =>
                  rw [hr] at h1
                  simp at h1
                  exact ⟨d, r2, rfl, h1⟩
            obtain ⟨d, rest2, hre, hdig⟩ := hd
            subst hre
            simp only [pass2Go]
            rw [if_pos trivial]
            have htw : List.takeWhile isDig (d :: rest2) = d :: List.takeWhile isDig rest2 := by
              simp [List.takeWhile_cons, hdig]
            have hds : ((d :: rest2).takeWhile isDig).isEmpty = false := by
              rw [htw]; rfl
            rw [if_neg (by simp [hds])]
            intro hx
            rcases List.mem_append.mp hx with h1 | h1
            · exact argAt1_not_mem args pctChar hargs _ h1
            · refine ih _ (pctOk_drop _ _ hokr) ?_ h1
              simp only [List.length_drop]
              simp only [List.length_cons] at hlen
              omega
          · simp only [pass2Go]
            rw [if_neg hp]
            intro hx
            rcases List.mem_cons.mp hx with h1 | h1
            · exact hp h1.symm
            · exact ih rest hokr hlenr h1

theorem pass3Go_preserves (x : Char) (hx : ¬ x = nlChar) :
    ∀ fuel s, x ∉ s → x ∉ pass3Go fuel s := by
  intro fuel
  induction fuel with
  | zero => intro s h; exact h
  | succ n ih =>
      intro s h
      cases s with
      | nil => simp [pass3Go]
      | cons c rest =>
          have hc : ¬ x = c := fun he => h (he ▸ List.mem_cons_self _ _)
          have hrest : x ∉ rest := fun hz => h (List.mem_cons_of_mem _ hz)
          simp only [pass3Go]
          by_cases hcond : c = pctChar ∧ rest.head? = some letterN
          · rw [if_pos hcond]
            intro hz
            rcases List.mem_cons.mp hz with h1 | h1
            · exact hx h1
            · exact ih _ (fun hw => hrest (List.tail_subset _ hw)) h1
          · rw [if_neg hcond]
            intro hz
            rcases List.mem_cons.mp hz with h1 | h1
            · exact hc h1
            · exact ih rest hrest h1

theorem pass4Go_preserves (args : List (List Char)) (x : Char)
    (hargs : ∀ a ∈ args, x ∉ a) :
    ∀ fuel s, x ∉ s → x ∉ pass4Go args fuel s := by
  intro fuel
  induction fuel with
  | zero => intro s h; exact h
  | succ n ih =>
      intro s h
      cases s with
      | nil => simp [pass4Go]
      | cons c rest =>
          have hc : ¬ x = c := fun he => h (he ▸ List.mem_cons_self _ _)
          have hrest : x ∉ rest := fun hz => h (List.mem_cons_of_mem _ hz)
          by_cases hp : c = lbChar
          · subst hp
            simp only [pass4Go]
            rw [if_pos trivial]
            by_cases hds : (rest.takeWhile isDig).isEmpty = true
            · rw [if_pos hds]
              intro hz
              rcases List.mem_cons.mp hz with h1 | h1
              · exact hc h1
              · exact ih rest hrest h1
            · rw [if_neg hds]
              by_cases hrb : (rest.drop (rest.takeWhile isDig).length).head? = some rbChar
              · rw [if_pos hrb]
                intro hz
                rcases List.mem_append.mp hz with h1 | h1
                · exact argAt0_not_mem args x hargs _ h1
                · refine ih _ ?_ h1
                  intro hw
                  exact hrest (List.drop_subset _ _ (List.tail_subset _ hw))
              · rw [if_neg hrb]
                intro hz
                rcases List.mem_cons.mp hz with h1 | h1
                · exact hc h1
                · exact ih rest hrest h1
          · simp only [pass4Go]
            rw [if_neg hp]
            intro hz
            rcases List.mem_cons.mp hz with h1 | h1
            · exact hc h1
            · exact ih rest hrest h1

theorem pass5Go_preserves (x : Char) :
    ∀ fuel s, x ∉ s → x ∉ pass5Go fuel s := by
  intro fuel
  induction fuel with
  | zero => intro s h; exact h
  | succ n ih =>
      intro s h
      cases s with
      | nil => simp [pass5Go]
      | cons c rest =>
          have hc : ¬ x = c := fun he => h (he ▸ List.mem_cons_self _ _)
          have hrest : x ∉ rest := fun hz => h (List.mem_cons_of_mem _ hz)
          by_cases hp : c = bangChar
          · subst hp
            simp only [pass5Go]
            rw [if_pos trivial]
            by_cases hds : (rest.takeWhile isAlphaChar).isEmpty = true
            · rw [if_pos hds]
              intro hz
              rcases List.mem_cons.mp hz with h1 | h1
              · exact hc h1
              · exact ih rest hrest h1
            · rw [if_neg hds]
              by_cases hrb :
                  (rest.drop (rest.takeWhile isAlphaChar).length).head? = some bangChar
              · rw [if_pos hrb]
                refine ih _ ?_
                intro hw
                exact hrest (List.drop_subset _ _ (List.tail_subset _ hw))
              · rw [if_neg hrb]
                intro hz
                rcases List.mem_cons.mp hz with h1 | h1
                · exact hc h1
                · exact ih rest hrest h1
          · simp only [pass5Go]
            rw [if_neg hp]
            intro hz
            rcases List.mem_cons.mp hz with h1 | h1
            · exact hc h1
            · exact ih rest hrest h1

/-- C9 counterexample: with template "%1" and the single argument "%1"
(so N = 1 ≤ len(a)), the replacement reinserts the placeholder text and
the output still contains the residual placeholder %1. -/
theorem C9_residual_survives :
    applyMessageTemplate (String.toList "%1") [String.toList "%1"]
      = String.toList "%1" := by decide

/-- C9 (amended): when every percent sign of the template is immediately
followed by a digit, the template contains no exclamation mark, and no
argument contains a percent sign or an exclamation mark, the output of
applyMessageTemplate contains no percent sign and no exclamation mark at
all — in particular no residual %N placeholder and no residual !fmt!
token. Without the restriction on the arguments this fails, because the
replaces are sequential and replacement text is rescanned by the later
passes (counterexample above). -/
theorem C9_no_residuals (t : List Char) (args : List (List Char))
    (hargs : ∀ a ∈ args, pctChar ∉ a ∧ bangChar ∉ a)
    (ht1 : pctOk t = true) (ht2 : bangChar ∉ t) :
    pctChar ∉ applyMessageTemplate t args ∧ bangChar ∉ applyMessageTemplate t args := by
  have hargp : ∀ a ∈ args, pctChar ∉ a := fun a ha => (hargs a ha).1
  have hargb : ∀ a ∈ args, bangChar ∉ a := fun a ha => (hargs a ha).2
  simp only [applyMessageTemplate]
  rw [pass1Go_id args t.length t ht2]
  have hp2 : pctChar ∉ pass2Go args t.length t :=
    pass2Go_no_pct args hargp t.length t ht1 le_rfl
  have hb2 : bangChar ∉ pass2Go args t.length t :=
    pass2Go_preserves args bangChar hargb t.length t ht2
  have hp3 : pctChar ∉ pass3Go (pass2Go args t.length t).length (pass2Go args t.length t) :=
    pass3Go_preserves pctChar (by decide) _ _ hp2
  have hb3 : bangChar ∉ pass3Go (pass2Go args t.length t).length (pass2Go args t.length t) :=
    pass3Go_preserves bangChar (by decide) _ _ hb2
  have hp4 : pctChar ∉ pass4Go args
      (pass3Go (pass2Go args t.length t).length (pass2Go args t.length t)).length
      (pass3Go (pass2Go args t.length t).length (pass2Go args t.length t)) :=
    pass4Go_preserves args pctChar hargp _ _ hp3
  have hb4 : bangChar ∉ pass4Go args
      (pass3Go (pass2Go args t.length t).length (pass2Go args t.length t)).length
      (pass3Go (pass2Go args t.length t).length (pass2Go args t.length t)) :=
    pass4Go_preserves args bangChar hargb _ _ hb3
  exact ⟨pass5Go_preserves pctChar _ _ hp4, pass5Go_preserves bangChar _ _ hb4⟩

/-- C9 witness: the template "Hello %1 and %2" with arguments "world" and
"moon" satisfies the hypotheses, and the substituted output contains
neither a percent sign nor an exclamation mark. -/
theorem C9_no_residuals_witness :
    (∀ a ∈ [String.toList "world", String.toList "moon"], pctChar ∉ a ∧ bangChar ∉ a)
    ∧ pctOk (String.toList "Hello %1 and %2") = true
    ∧ bangChar ∉ String.toList "Hello %1 and %2"
    ∧ pctChar ∉ applyMessageTemplate (String.toList "Hello %1 and %2")
        [String.toList "world", String.toList "moon"]
    ∧ bangChar ∉ applyMessageTemplate (String.toList "Hello %1 and %2")
        [String.toList "world", String.toList "moon"] := by
  have h1 : ∀ a ∈ [String.toList "world", String.toList "moon"], pctChar ∉ a ∧ bangChar ∉ a := by
    decide
  have h2 : pctOk (String.toList "Hello %1 and %2") = true := by decide
  have h3 : bangChar ∉ String.toList "Hello %1 and %2" := by decide
  exact ⟨h1, h2, h3,
    (C9_no_residuals (String.toList "Hello %1 and %2")
      [String.toList "world", String.toList "moon"] h1 h2 h3).1,
    (C9_no_residuals (String.toList "Hello %1 and %2")
      [String.toList "world", String.toList "moon"] h1 h2 h3).2⟩

end TsEvtx
